import Mathlib

/-!
Verification of the ingestion-and-aggregation pipeline of `opencode-wrapped`
(`src/collector.ts`, `src/stats.ts`) against its natural-language specification.

Modelling conventions (shallow embedding):

* A JSONL file is modelled as a list of already-decoded lines; a line that fails
  to decode (the parsers swallow such errors and skip the line) is the dedicated
  `other` / `malformed` constructor, which contributes nothing — exactly the
  behaviour of the `catch` around each `JSON.parse`.
* Timestamps are epoch milliseconds as `Nat` (the output of `parseTimestamp`).
  Calendar dates are modelled as epoch-day indices (`ts / 86400000`) in a UTC
  environment; `yearOfDay` implements the standard civil-from-days calendar
  algorithm, so `new Date(ts).getFullYear()` is `yearOfTs ts` and the
  `YYYY-MM-DD` key produced by `formatDateKey` is represented by the day index
  (the string key is a bijective, order-preserving rendering of the day for the
  years 1000–9999, so JavaScript's lexicographic `sort()` over keys is numeric
  sort over day indices).
* JavaScript `Map`s are modelled as insertion-ordered association lists
  (`bump` is `map.set(k, (map.get(k) || 0) + 1)`, `alookup` is `map.get`).
* Monetary cost is an integer in an arbitrary fixed sub-unit (the pipeline
  only copies cost values, sums them and tests them for zero, so the numeric
  representation is irrelevant); the truthiness test
  `if (message.usage.cost?.total)` is `cost ≠ 0` on the present value.
* `collectAll` reads the file system; we model the file system as the lists of
  (decoded) files each source's directory walk discovers, and fold over them in
  discovery order (the `Promise.all` fan-in only accumulates, so ordering does
  not affect any property proved here).
-/

set_option linter.unusedVariables false

namespace OCWrapped

/-! ## Calendar arithmetic (`new Date(ts)`, `formatDateKey`) -/

def msPerDay : Nat := 86400000

/-- Epoch-day index of a timestamp (the calendar date used by `formatDateKey`). -/
def dayOfTs (ts : Nat) : Nat := ts / msPerDay

/-- Civil calendar date `(year, month, day)` of an epoch-day index
(days since 1970-01-01), via the standard Gregorian algorithm. -/
def civilOfDay (z0 : Nat) : Nat × Nat × Nat :=
  let z := z0 + 719468
  let era := z / 146097
  let doe := z % 146097
  let yoe := (doe - doe / 1460 + doe / 36524 - doe / 146096) / 365
  let y := yoe + era * 400
  let doy := doe - (365 * yoe + yoe / 4 - yoe / 100)
  let mp := (5 * doy + 2) / 153
  let d := doy - (153 * mp + 2) / 5 + 1
  let m := if mp < 10 then mp + 3 else mp - 9
  (if m ≤ 2 then y + 1 else y, m, d)

/-- Calendar year of an epoch-day index (`new Date(...).getFullYear()`). -/
def yearOfDay (d : Nat) : Nat := (civilOfDay d).1

/-- Calendar year of an epoch-millisecond timestamp. -/
def yearOfTs (ts : Nat) : Nat := yearOfDay (dayOfTs ts)

/-- The guard `if (year && new Date(timestamp).getFullYear() !== year)`:
`yearPass year ts = false` exactly when a year filter is supplied and the
timestamp's year differs. -/
def yearPass (year : Option Nat) (ts : Nat) : Bool :=
  match year with
  | none => true
  | some y => yearOfTs ts == y

/-! ## Insertion-ordered maps (JavaScript `Map`) -/

/-- `map.get(k)` on an insertion-ordered association list. -/
def alookup {α β : Type} [DecidableEq α] (k : α) : List (α × β) → Option β
  | [] => none
  | (k2, v) :: rest => if k2 = k then some v else alookup k rest

/-- `map.set(k, (map.get(k) || 0) + 1)` on an insertion-ordered counter map. -/
def bump {α : Type} [DecidableEq α] (k : α) : List (α × Nat) → List (α × Nat)
  | [] => [(k, 1)]
  | (k2, c) :: rest => if k2 = k then (k2, c + 1) :: rest else (k2, c) :: bump k rest

/-- `map.has(k)` for the daily-activity counter map. -/
def hasKey (act : List (Nat × Nat)) (k : Nat) : Bool := (alookup k act).isSome

/-! ## Normalized data model (`src/types`) -/

inductive Source
  | pi | codex | claude | opencode
deriving DecidableEq, Repr

/-- The normalized usage block of a message. -/
structure Usage where
  input : Nat
  output : Nat
  cacheRead : Option Nat
  cacheWrite : Option Nat
  cost : Option Int
deriving DecidableEq, Repr

structure SessionData where
  id : String
  timestamp : Nat
  cwd : String
  provider : String
  modelId : String
  source : Source
deriving DecidableEq, Repr

/-- Roles are the raw strings carried by the log lines ("user", "assistant",
"toolResult"); the parsers never validate them beyond string comparison. -/
structure MessageData where
  sessionId : String
  role : String
  timestamp : Nat
  provider : Option String
  modelId : Option String
  usage : Option Usage
  source : Source
deriving DecidableEq, Repr

structure ProjectData where
  path : String
  sessionCount : Nat
  source : Source
deriving DecidableEq, Repr

/-! ## Pi format (`parsePiFile`) -/

inductive PiLine
  | session (id : String) (timestamp : Nat) (cwd provider modelId : String)
  | message (timestamp : Nat) (role : String) (provider modelId : Option String)
      (usage : Option Usage)
  | other
deriving DecidableEq, Repr

def piSession (id : String) (ts : Nat) (cwd provider modelId : String) : SessionData :=
  { id := id, timestamp := ts, cwd := cwd, provider := provider,
    modelId := modelId, source := Source.pi }

/-- A Pi message line becomes a message attached to the current session's id
(`session?.id ?? ""`), with the usage block passed through unchanged. -/
def piMessage (sess : Option SessionData) (ts : Nat) (role : String)
    (provider modelId : Option String) (usage : Option Usage) : MessageData :=
  { sessionId := match sess with | some s => s.id | none => "",
    role := role, timestamp := ts, provider := provider, modelId := modelId,
    usage := usage, source := Source.pi }

/-- The line loop of `parsePiFile`.  A session line failing the year filter
returns `{ session: null, messages: [] }` for the whole file (early return);
a message line failing the filter is skipped (`continue`). -/
def parsePiGo (year : Option Nat) :
    Option SessionData → List MessageData → List PiLine →
    Option SessionData × List MessageData
  | sess, acc, [] => (sess, acc)
  | sess, acc, PiLine.session id ts cwd prov mid :: rest =>
      if yearPass year ts then parsePiGo year (some (piSession id ts cwd prov mid)) acc rest
      else (none, [])
  | sess, acc, PiLine.message ts role prov mid usage :: rest =>
      if yearPass year ts then
        parsePiGo year sess (acc ++ [piMessage sess ts role prov mid usage]) rest
      else parsePiGo year sess acc rest
  | sess, acc, PiLine.other :: rest => parsePiGo year sess acc rest

def parsePiFile (lines : List PiLine) (year : Option Nat) :
    Option SessionData × List MessageData :=
  parsePiGo year none [] lines

/-! ## Claude Code format (`parseClaudeFile`) -/

/-- Raw `message.usage` of a Claude line; each counter may be missing
(the code defends with `|| 0` for input/output and copies the rest). -/
structure ClaudeUsageRaw where
  input_tokens : Option Nat
  output_tokens : Option Nat
  cache_read_input_tokens : Option Nat
  cache_creation_input_tokens : Option Nat
deriving DecidableEq, Repr

/-- One decoded Claude JSONL line.  `type` is an arbitrary string: the parser
only checks truthiness of `type`/`sessionId` before registering a session and
compares against "user"/"assistant" before emitting a message. -/
structure ClaudeRec where
  type : String
  sessionId : String
  cwd : String
  timestamp : Nat
  model : Option String
  usage : Option ClaudeUsageRaw
  costUSD : Option Int
deriving DecidableEq, Repr

inductive ClaudeLine
  | line (r : ClaudeRec)
  | malformed
deriving DecidableEq, Repr

def mkClaudeSession (r : ClaudeRec) : SessionData :=
  { id := r.sessionId, timestamp := r.timestamp, cwd := r.cwd, provider := "anthropic",
    modelId := match r.model with
      | some m => if m = "" then "claude" else m
      | none => "claude",
    source := Source.claude }

/-- Renaming of the Claude usage counters onto the unified block.
`costUSD` is NOT copied: the normalized usage has no cost. -/
def claudeUsage (u : ClaudeUsageRaw) : Usage :=
  { input := u.input_tokens.getD 0, output := u.output_tokens.getD 0,
    cacheRead := u.cache_read_input_tokens,
    cacheWrite := u.cache_creation_input_tokens, cost := none }

def mkClaudeMessage (r : ClaudeRec) : MessageData :=
  { sessionId := r.sessionId, role := r.type, timestamp := r.timestamp,
    provider := some "anthropic", modelId := r.model,
    usage := r.usage.map claudeUsage, source := Source.claude }

/-- The line loop of `parseClaudeFile`: guard `!parsed.type || !parsed.sessionId`,
year filter, session registration for ANY surviving line (first-seen-wins),
message emission for user/assistant lines. -/
def parseClaudeGo (year : Option Nat) :
    List (String × SessionData) → List MessageData → List ClaudeLine →
    List (String × SessionData) × List MessageData
  | S, M, [] => (S, M)
  | S, M, ClaudeLine.malformed :: rest => parseClaudeGo year S M rest
  | S, M, ClaudeLine.line r :: rest =>
      if r.type = "" ∨ r.sessionId = "" then parseClaudeGo year S M rest
      else if yearPass year r.timestamp then
        parseClaudeGo year
          (if (alookup r.sessionId S).isSome then S
           else S ++ [(r.sessionId, mkClaudeSession r)])
          (if r.type = "user" ∨ r.type = "assistant" then M ++ [mkClaudeMessage r] else M)
          rest
      else parseClaudeGo year S M rest

def parseClaudeFile (lines : List ClaudeLine) (year : Option Nat) :
    List (String × SessionData) × List MessageData :=
  parseClaudeGo year [] [] lines

/-! ## Codex CLI format (`parseCodexFile`) -/

structure CodexUsageRaw where
  input_tokens : Option Nat
  output_tokens : Option Nat
deriving DecidableEq, Repr

inductive CodexLine
  | sessionMeta (timestamp : Nat) (id cwd modelProvider : String)
  | responseItem (timestamp : Nat) (role : String)
  | eventTokenCount (timestamp : Nat) (lastTokenUsage : Option CodexUsageRaw)
  | other
deriving DecidableEq, Repr

def codexSession (ts : Nat) (id cwd prov : String) : SessionData :=
  { id := id, timestamp := ts, cwd := cwd,
    provider := if prov = "" then "openai" else prov,
    modelId := "codex", source := Source.codex }

/-- A Codex response item: role from the payload, no usage yet
(`session?.id ?? ""`, `session?.provider || "openai"`). -/
def codexMessage (sess : Option SessionData) (ts : Nat) (role : String) : MessageData :=
  { sessionId := match sess with | some s => s.id | none => "",
    role := role, timestamp := ts,
    provider := some (match sess with
      | some s => if s.provider = "" then "openai" else s.provider
      | none => "openai"),
    modelId := some "codex", usage := none, source := Source.codex }

def codexUsage (u : CodexUsageRaw) : Usage :=
  { input := u.input_tokens.getD 0, output := u.output_tokens.getD 0,
    cacheRead := none, cacheWrite := none, cost := none }

/-- The backwards scan `for (let i = messages.length - 1; i >= 0; i--)`:
attach `u` to the LAST message whose role is "assistant" and whose usage is
absent; the Bool reports whether an attachment happened (`break`). -/
def attachUsageBack (u : Usage) : List MessageData → List MessageData × Bool
  | [] => ([], false)
  | m :: rest =>
      match attachUsageBack u rest with
      | (rest2, true) => (m :: rest2, true)
      | (_, false) =>
          if m.role = "assistant" ∧ m.usage = none
          then ({ m with usage := some u } :: rest, true)
          else (m :: rest, false)

/-- The line loop of `parseCodexFile`: session meta aborts the file on year
mismatch (early return), response items append messages, token-count events
back-attach usage via `attachUsageBack` (no year filter on that branch). -/
def parseCodexGo (year : Option Nat) :
    Option SessionData → List MessageData → List CodexLine →
    Option SessionData × List MessageData
  | sess, M, [] => (sess, M)
  | sess, M, CodexLine.other :: rest => parseCodexGo year sess M rest
  | sess, M, CodexLine.sessionMeta ts id cwd prov :: rest =>
      if yearPass year ts then parseCodexGo year (some (codexSession ts id cwd prov)) M rest
      else (none, [])
  | sess, M, CodexLine.responseItem ts role :: rest =>
      if yearPass year ts then parseCodexGo year sess (M ++ [codexMessage sess ts role]) rest
      else parseCodexGo year sess M rest
  | sess, M, CodexLine.eventTokenCount ts info :: rest =>
      match info with
      | some u => parseCodexGo year sess (attachUsageBack (codexUsage u) M).1 rest
      | none => parseCodexGo year sess M rest

def parseCodexFile (lines : List CodexLine) (year : Option Nat) :
    Option SessionData × List MessageData :=
  parseCodexGo year none [] lines

/-! ## OpenCode format (`collectOpenCode`) -/

structure OCTokens where
  input : Option Nat
  output : Option Nat
  cache : Option (Nat × Nat)
deriving DecidableEq, Repr

structure OCSessionDoc where
  id : String
  directory : String
  created : Nat
deriving DecidableEq, Repr

structure OCMessageDoc where
  sessionID : String
  role : String
  modelID : Option String
  providerID : Option String
  tokens : Option OCTokens
  cost : Option Int
  created : Nat
deriving DecidableEq, Repr

def ocSession (d : OCSessionDoc) : SessionData :=
  { id := d.id, timestamp := d.created, cwd := d.directory,
    provider := "opencode", modelId := "opencode", source := Source.opencode }

/-- OpenCode token block onto the unified usage block.  The per-message
`cost` field of the document is NOT copied: the normalized usage has no cost. -/
def ocUsage (t : OCTokens) : Usage :=
  { input := t.input.getD 0, output := t.output.getD 0,
    cacheRead := t.cache.map Prod.fst, cacheWrite := t.cache.map Prod.snd, cost := none }

def ocMessage (d : OCMessageDoc) : MessageData :=
  { sessionId := d.sessionID, role := d.role, timestamp := d.created,
    provider := d.providerID, modelId := d.modelID,
    usage := d.tokens.map ocUsage, source := Source.opencode }

/-! ## Collection (`collectAll`) -/

structure CollectResult where
  sessions : List SessionData
  messages : List MessageData
  projects : List ProjectData
deriving DecidableEq, Repr

structure CollectAcc where
  sessions : List SessionData
  messages : List MessageData
  projectMap : List (String × Nat)
deriving DecidableEq, Repr

def emptyAcc : CollectAcc := { sessions := [], messages := [], projectMap := [] }

def projectsOf (source : Source) (pm : List (String × Nat)) : List ProjectData :=
  pm.map (fun p => { path := p.1, sessionCount := p.2, source := source })

def piStep (year : Option Nat) (acc : CollectAcc) (file : List PiLine) : CollectAcc :=
  let res := parsePiFile file year
  match res.1 with
  | some s =>
      { sessions := acc.sessions ++ [s], messages := acc.messages ++ res.2,
        projectMap := bump s.cwd acc.projectMap }
  | none => { acc with messages := acc.messages ++ res.2 }

def collectPi (files : List (List PiLine)) (year : Option Nat) : CollectResult :=
  let acc := files.foldl (piStep year) emptyAcc
  { sessions := acc.sessions, messages := acc.messages,
    projects := projectsOf Source.pi acc.projectMap }

def codexStep (year : Option Nat) (acc : CollectAcc) (file : List CodexLine) : CollectAcc :=
  let res := parseCodexFile file year
  match res.1 with
  | some s =>
      { sessions := acc.sessions ++ [s], messages := acc.messages ++ res.2,
        projectMap := bump s.cwd acc.projectMap }
  | none => { acc with messages := acc.messages ++ res.2 }

def collectCodex (files : List (List CodexLine)) (year : Option Nat) : CollectResult :=
  let acc := files.foldl (codexStep year) emptyAcc
  { sessions := acc.sessions, messages := acc.messages,
    projects := projectsOf Source.codex acc.projectMap }

structure ClaudeAcc where
  allSessions : List (String × SessionData)
  messages : List MessageData
  projectMap : List (String × Nat)
deriving DecidableEq, Repr

/-- One step of the Claude merge loop: `if (!allSessions.has(id)) { set; bump }`. -/
def claudeInsert (a : ClaudeAcc) (kv : String × SessionData) : ClaudeAcc :=
  if (alookup kv.1 a.allSessions).isSome then a
  else { a with allSessions := a.allSessions ++ [kv],
                projectMap := bump kv.2.cwd a.projectMap }

def claudeStep (year : Option Nat) (a : ClaudeAcc) (file : List ClaudeLine) : ClaudeAcc :=
  let res := parseClaudeFile file year
  let merged := res.1.foldl claudeInsert a
  { merged with messages := merged.messages ++ res.2 }

def collectClaude (files : List (List ClaudeLine)) (year : Option Nat) : CollectResult :=
  let a := files.foldl (claudeStep year)
    { allSessions := [], messages := [], projectMap := [] }
  { sessions := a.allSessions.map Prod.snd, messages := a.messages,
    projects := projectsOf Source.claude a.projectMap }

def ocSessStep (year : Option Nat) (acc : CollectAcc) (d : OCSessionDoc) : CollectAcc :=
  if yearPass year d.created then
    { acc with sessions := acc.sessions ++ [ocSession d],
               projectMap := bump d.directory acc.projectMap }
  else acc

def ocMsgStep (year : Option Nat) (ms : List MessageData) (d : OCMessageDoc) :
    List MessageData :=
  if yearPass year d.created then ms ++ [ocMessage d] else ms

def collectOpenCode (sessionDocs : List OCSessionDoc) (messageDocs : List OCMessageDoc)
    (year : Option Nat) : CollectResult :=
  let acc := sessionDocs.foldl (ocSessStep year) emptyAcc
  let msgs := messageDocs.foldl (ocMsgStep year) []
  { sessions := acc.sessions, messages := msgs,
    projects := projectsOf Source.opencode acc.projectMap }

/-- The decoded contents of one source's on-disk tree, as discovered by
`findJsonlFiles` / the two-level OpenCode directory walk. -/
inductive FileSystem
  | pi (files : List (List PiLine))
  | claude (files : List (List ClaudeLine))
  | codex (files : List (List CodexLine))
  | opencode (sessionDocs : List OCSessionDoc) (messageDocs : List OCMessageDoc)
deriving DecidableEq, Repr

def collectAll : FileSystem → Option Nat → CollectResult
  | FileSystem.pi files, year => collectPi files year
  | FileSystem.claude files, year => collectClaude files year
  | FileSystem.codex files, year => collectCodex files year
  | FileSystem.opencode sd md, year => collectOpenCode sd md year

/-! ## Statistics engine (`calculateStats`, `calculateStreaks`) -/

structure StatsAcc where
  input : Nat
  output : Nat
  cost : Int
  daily : List (Nat × Nat)
deriving DecidableEq, Repr

def statsAcc0 : StatsAcc := { input := 0, output := 0, cost := 0, daily := [] }

/-- `if (message.usage.cost?.total) totalCost += message.usage.cost.total`. -/
def costAdd (u : Usage) : Int :=
  match u.cost with
  | some c => if c = 0 then 0 else c
  | none => 0

/-- The per-message accumulation of `calculateStats`: token/cost sums when a
usage block is present, then one daily-activity increment for every message. -/
def statsStep (acc : StatsAcc) (m : MessageData) : StatsAcc :=
  let acc2 := match m.usage with
    | some u =>
        { acc with
          input := acc.input + u.input
          output := acc.output + u.output
          cost := acc.cost + costAdd u }
    | none => acc
  { acc2 with daily := bump (dayOfTs m.timestamp) acc2.daily }

structure StreakSt where
  maxStreak : Nat
  tempStreak : Nat
  tempStreakStart : Nat
  maxStreakStart : Nat
  maxStreakEnd : Nat
deriving DecidableEq, Repr

def initSt : StreakSt :=
  { maxStreak := 1, tempStreak := 1, tempStreakStart := 0,
    maxStreakStart := 0, maxStreakEnd := 0 }

/-- Loop body of the max-streak scan at index `i` (`diffDays === 1` is an exact
integer day difference between the parsed date keys). -/
def streakStep (st : StreakSt) (i : Nat) (prev curr : Nat) : StreakSt :=
  if (curr : Int) - (prev : Int) = 1 then
    if st.maxStreak < st.tempStreak + 1 then
      { maxStreak := st.tempStreak + 1, tempStreak := st.tempStreak + 1,
        tempStreakStart := st.tempStreakStart,
        maxStreakStart := st.tempStreakStart, maxStreakEnd := i }
    else { st with tempStreak := st.tempStreak + 1 }
  else { st with tempStreak := 1, tempStreakStart := i }

/-- The `for (let i = 1; i < activeDates.length; i++)` loop; `prev` is
`activeDates[i-1]`, the list argument holds `activeDates[i..]`. -/
def streakGo (st : StreakSt) (i : Nat) (prev : Nat) : List Nat → StreakSt
  | [] => st
  | curr :: rest => streakGo (streakStep st i prev curr) (i + 1) curr rest

/-- `activeDates[s..s+len-1]` — the `for (i = maxStreakStart; i <= maxStreakEnd)`
collection loop. -/
def sliceIdx (dates : List Nat) (s : Nat) : Nat → List Nat
  | 0 => []
  | len + 1 => dates.getD s 0 :: sliceIdx dates (s + 1) len

/-- `Array.from(dailyActivity.keys()).filter(startsWith(year)).sort()`. -/
def activeDatesOf (act : List (Nat × Nat)) (year : Nat) : List Nat :=
  List.insertionSort (· ≤ ·) ((act.map Prod.fst).filter (fun d => yearOfDay d == year))

/-- `countStreakBackwards`: 1 for the anchor day, plus one per consecutive
active day walking backwards until the first gap. -/
def countStreakBackwards (act : List (Nat × Nat)) : Nat → Nat
  | 0 => 1
  | d + 1 => if hasKey act d then countStreakBackwards act d + 1 else 1

/-- The current-streak anchor selection: today if active, else yesterday if
active, else 0.  Uses the full (not year-restricted) activity map. -/
def currentStreakOf (act : List (Nat × Nat)) (now : Nat) : Nat :=
  let today := dayOfTs now
  let yesterday := (now - msPerDay) / msPerDay
  if hasKey act today then countStreakBackwards act today
  else if hasKey act yesterday then countStreakBackwards act yesterday
  else 0

structure StreaksResult where
  maxStreak : Nat
  currentStreak : Nat
  maxStreakDays : List Nat
deriving DecidableEq, Repr

def calculateStreaks (act : List (Nat × Nat)) (year : Nat) (now : Nat) : StreaksResult :=
  match activeDatesOf act year with
  | [] => { maxStreak := 0, currentStreak := 0, maxStreakDays := [] }
  | d :: rest =>
      let st := streakGo initSt 1 d rest
      { maxStreak := st.maxStreak,
        currentStreak := currentStreakOf act now,
        maxStreakDays :=
          sliceIdx (d :: rest) st.maxStreakStart (st.maxStreakEnd + 1 - st.maxStreakStart) }

/-- The summary fields of `WrappedStats` covered by the verified claims
(ranking, weekday and first-session presentation fields are omitted). -/
structure WrappedStatsM where
  totalSessions : Nat
  totalMessages : Nat
  totalProjects : Nat
  totalInputTokens : Nat
  totalOutputTokens : Nat
  totalTokens : Nat
  totalCost : Int
  dailyActivity : List (Nat × Nat)
  maxStreak : Nat
  currentStreak : Nat
  maxStreakDays : List Nat
deriving DecidableEq, Repr

/-- `calculateStats`: note that the collection step is `collectAll(source)` with
NO year argument — sessions and messages are then re-filtered locally, but the
project list is taken from the unfiltered collection as-is. -/
def calculateStats (year : Nat) (fs : FileSystem) (now : Nat) : WrappedStatsM :=
  let r := collectAll fs none
  let sessions := r.sessions.filter (fun s => yearOfTs s.timestamp == year)
  let yearMessages := r.messages.filter (fun m => yearOfTs m.timestamp == year)
  let acc := yearMessages.foldl statsStep statsAcc0
  let streaks := calculateStreaks acc.daily year now
  { totalSessions := sessions.length,
    totalMessages := yearMessages.length,
    totalProjects := r.projects.length,
    totalInputTokens := acc.input,
    totalOutputTokens := acc.output,
    totalTokens := acc.input + acc.output,
    totalCost := acc.cost,
    dailyActivity := acc.daily,
    maxStreak := streaks.maxStreak,
    currentStreak := streaks.currentStreak,
    maxStreakDays := streaks.maxStreakDays }

/-! ## Specification-side definitions used by the theorems -/

/-- Sum of all counter values of a daily-activity map. -/
def sumVals (l : List (Nat × Nat)) : Nat := (l.map Prod.snd).sum

/-- First-of-two option choice (first-seen-wins). -/
def orElseO {β : Type} (a b : Option β) : Option β :=
  match a with
  | some v => some v
  | none => b

/-- A message whose usage block (if any) carries no cost. -/
def costFree (m : MessageData) : Prop := ∀ u, m.usage = some u → u.cost = none

/-- The decoded record of a Claude line that survives the truthiness guard and
the year filter (the lines that can register sessions / emit messages). -/
def claudeAccept (year : Option Nat) : ClaudeLine → Option ClaudeRec
  | ClaudeLine.line r =>
      if (r.type = "" ∨ r.sessionId = "") ∨ yearPass year r.timestamp = false then none
      else some r
  | ClaudeLine.malformed => none

def claudeAccepted (year : Option Nat) (lines : List ClaudeLine) : List ClaudeRec :=
  lines.filterMap (claudeAccept year)

def isUserOrAssistant (r : ClaudeRec) : Bool :=
  decide (r.type = "user" ∨ r.type = "assistant")

/-- Specification of the Claude parser's message output: one message per
accepted user/assistant line, in file order. -/
def claudeMsgsOf (year : Option Nat) (lines : List ClaudeLine) : List MessageData :=
  ((claudeAccepted year lines).filter isUserOrAssistant).map mkClaudeMessage

/-- Specification of the Claude parser's session registration: the session
stored under `id` is built from the FIRST accepted line carrying that id
(first-seen-wins). -/
def claudeFirstSession (year : Option Nat) (lines : List ClaudeLine) (id : String) :
    Option SessionData :=
  ((claudeAccepted year lines).find? (fun r => r.sessionId == id)).map mkClaudeSession

/-- A Pi line that triggers the whole-file abandonment under year filter `y`
(a session-defining line whose year mismatches). -/
def piLineAborts (y : Nat) : PiLine → Bool
  | PiLine.session _ ts _ _ _ => !(yearPass (some y) ts)
  | _ => false

/-- A Codex line that triggers the whole-file abandonment under year filter `y`
(a session-meta line whose year mismatches). -/
def codexLineAborts (y : Nat) : CodexLine → Bool
  | CodexLine.sessionMeta ts _ _ _ => !(yearPass (some y) ts)
  | _ => false

/-- A message eligible to receive a back-attached token count:
assistant role, no usage yet. -/
def usageSlot (m : MessageData) : Prop := m.role = "assistant" ∧ m.usage = none

instance (m : MessageData) : Decidable (usageSlot m) := by
  unfold usageSlot; infer_instance

/-- Adjacent dates at positions `i-1`, `i` differ by exactly one day. -/
def consecAt (dates : List Nat) (i : Nat) : Prop :=
  dates.getD i 0 = dates.getD (i - 1) 0 + 1

/-- Start index of the consecutive run containing index `j`. -/
def runStartIdx (dates : List Nat) : Nat → Nat
  | 0 => 0
  | j + 1 => if dates.getD (j + 1) 0 = dates.getD j 0 + 1 then runStartIdx dates j else j + 1

/-- Length of the consecutive run ending at index `j` (counted from its start). -/
def streakAt (dates : List Nat) (j : Nat) : Nat := j - runStartIdx dates j + 1

/-- `[s, e]` is a maximal consecutive run of the date list: consecutive inside,
broken (or at the boundary) on both sides. -/
def IsRun (dates : List Nat) (s e : Nat) : Prop :=
  s ≤ e ∧ e < dates.length ∧
  (s = 0 ∨ ¬consecAt dates s) ∧
  (e + 1 = dates.length ∨ ¬consecAt dates (e + 1)) ∧
  (∀ i, s < i → i ≤ e → consecAt dates i)

/-- Loop invariant of the max-streak scan after the indices `1..i-1` have been
processed. -/
def StreakInv (dates : List Nat) (i : Nat) (st : StreakSt) : Prop :=
  st.tempStreakStart = runStartIdx dates (i - 1) ∧
  st.tempStreak = streakAt dates (i - 1) ∧
  st.maxStreakEnd < i ∧
  st.maxStreakStart = runStartIdx dates st.maxStreakEnd ∧
  st.maxStreak = streakAt dates st.maxStreakEnd ∧
  (∀ j, j < i → streakAt dates j ≤ st.maxStreak) ∧
  (∀ j, j < st.maxStreakEnd → streakAt dates j < st.maxStreak)

/-! ## Concrete inputs used by counterexamples and witnesses -/

/-- 2024-12-31 (epoch-day 20088) as an epoch-millisecond timestamp. -/
def tsDec31 : Nat := 20088 * 86400000

/-- 2025-01-01 (epoch-day 20089) as an epoch-millisecond timestamp. -/
def tsJan1 : Nat := 20089 * 86400000

/-- One Pi file whose only session is dated 2024. -/
def exC1fs : FileSystem :=
  FileSystem.pi [[PiLine.session "s1" tsDec31 "/proj" "prov" "m1"]]

/-- One Pi file with one message on 2024-12-31 and one on 2025-01-01. -/
def exC2fs : FileSystem :=
  FileSystem.pi
    [[PiLine.message tsDec31 "user" none none none,
      PiLine.message tsJan1 "user" none none none]]

/-- Midday on 2025-01-01. -/
def nowJan1 : Nat := tsJan1 + 43200000

/-- A well-formed Claude line whose `type` is neither "user" nor "assistant". -/
def exC3rec : ClaudeRec :=
  { type := "system", sessionId := "sess1", cwd := "/p", timestamp := tsJan1,
    model := none, usage := none, costUSD := none }

/-- Two Pi files declaring the same session id. -/
def exC4fs : FileSystem :=
  FileSystem.pi
    [[PiLine.session "dup" tsJan1 "/a" "p" "m"],
     [PiLine.session "dup" tsJan1 "/a" "p" "m"]]

/-- Codex event-log file: session meta, one assistant response item, one
token-count event, in that order. -/
def exC5file : List CodexLine :=
  [CodexLine.sessionMeta tsJan1 "cs" "/cw" "openai",
   CodexLine.responseItem (tsJan1 + 1) "assistant",
   CodexLine.eventTokenCount (tsJan1 + 2)
     (some { input_tokens := some 10, output_tokens := some 20 })]

/-- A Pi file whose assistant message carries a cost of 5 in its usage block. -/
def exC6fs : FileSystem :=
  FileSystem.pi
    [[PiLine.session "s" tsJan1 "/p" "pr" "m",
      PiLine.message tsJan1 "assistant" (some "pr") (some "m")
        (some { input := 1, output := 2, cacheRead := none, cacheWrite := none,
                cost := some 5 })]]

/-- Daily activity with two runs of length two (days 10-11 and 20-21 of 1970). -/
def exC7act : List (Nat × Nat) := [(20, 1), (10, 1), (21, 1), (11, 2)]

/-- Daily activity with a single active day. -/
def exC8act : List (Nat × Nat) := [(5, 3)]

/-- A bare usage block with no cost, as built from a token-count event. -/
def exUsage : Usage :=
  { input := 7, output := 9, cacheRead := none, cacheWrite := none, cost := none }

/-- A user-role message (not eligible for usage back-attachment). -/
def exMsgUser : MessageData :=
  { sessionId := "cs", role := "user", timestamp := tsJan1, provider := some "openai",
    modelId := some "codex", usage := none, source := Source.codex }

/-- An assistant message without usage (eligible for back-attachment). -/
def exMsgSlot : MessageData :=
  { sessionId := "cs", role := "assistant", timestamp := tsJan1 + 1,
    provider := some "openai", modelId := some "codex", usage := none,
    source := Source.codex }

/-- An assistant message that already has usage (not eligible). -/
def exMsgDone : MessageData :=
  { sessionId := "cs", role := "assistant", timestamp := tsJan1 + 2,
    provider := some "openai", modelId := some "codex", usage := some exUsage,
    source := Source.codex }

/-- A Pi file with a message line before a session line whose year mismatches 2025. -/
def exC10pi : List PiLine :=
  [PiLine.message tsJan1 "user" none none none,
   PiLine.session "s" tsDec31 "/p" "pr" "m"]

/-- A Codex file with a response item before a session meta whose year mismatches 2025. -/
def exC10codex : List CodexLine :=
  [CodexLine.responseItem tsJan1 "user",
   CodexLine.sessionMeta tsDec31 "s" "/p" "pr"]

/-! # Theorems -/

/-! ## Basic lemmas on the insertion-ordered counter map -/

theorem sumVals_nil : sumVals [] = 0 := rfl

theorem sumVals_cons (p : Nat × Nat) (l : List (Nat × Nat)) :
    sumVals (p :: l) = p.2 + sumVals l := by
  simp [sumVals]

theorem sumVals_bump (k : Nat) (l : List (Nat × Nat)) :
    sumVals (bump k l) = sumVals l + 1 := by
  induction l with
  | nil => simp [bump, sumVals]
  | cons p rest ih =>
      obtain ⟨k2, c⟩ := p
      by_cases h : k2 = k
      · simp only [bump, if_pos h, sumVals_cons]
        omega
      · simp only [bump, if_neg h, sumVals_cons]
        omega

theorem statsStep_daily (acc : StatsAcc) (m : MessageData) :
    (statsStep acc m).daily = bump (dayOfTs m.timestamp) acc.daily := by
  unfold statsStep
  cases m.usage <;> rfl

theorem statsFold_daily_sum (ms : List MessageData) :
    ∀ acc : StatsAcc,
      sumVals (ms.foldl statsStep acc).daily = sumVals acc.daily + ms.length := by
  induction ms with
  | nil => intro acc; simp
  | cons m rest ih =>
      intro acc
      rw [List.foldl_cons, ih, statsStep_daily, sumVals_bump]
      simp only [List.length_cons]
      omega

/-- Claim C9: for every input and target year, the sum of all values in the
daily-activity map produced by `calculateStats` equals `totalMessages`, the
count of year-filtered messages (every message increments exactly one
daily-activity bucket, regardless of role). -/
theorem c9_daily_sum_eq_total_messages (year : Nat) (fs : FileSystem) (now : Nat) :
    sumVals (calculateStats year fs now).dailyActivity
      = (calculateStats year fs now).totalMessages := by
  simp only [calculateStats]
  rw [statsFold_daily_sum]
  simp [statsAcc0, sumVals]

/-! ## C10: file-scoped abandonment on session-year mismatch -/

theorem parsePiGo_aborts (y : Nat) :
    ∀ (lines : List PiLine) (sess : Option SessionData) (acc : List MessageData),
      (∃ l ∈ lines, piLineAborts y l = true) →
      parsePiGo (some y) sess acc lines = (none, []) := by
  intro lines
  induction lines with
  | nil => intro sess acc h; simp at h
  | cons l rest ih =>
      intro sess acc h
      match l with
      | PiLine.session id ts cwd prov mid =>
          by_cases hy : yearPass (some y) ts = true
          · have h2 : ∃ l ∈ rest, piLineAborts y l = true := by
              rcases h with ⟨l2, hl2, hab⟩
              rcases List.mem_cons.mp hl2 with rfl | hmem
              · exfalso; simp [piLineAborts, hy] at hab
              · exact ⟨l2, hmem, hab⟩
            simp only [parsePiGo, if_pos hy]
            exact ih _ _ h2
          · simp only [parsePiGo, if_neg hy]
      | PiLine.message ts role prov mid usage =>
          have h2 : ∃ l ∈ rest, piLineAborts y l = true := by
            rcases h with ⟨l2, hl2, hab⟩
            rcases List.mem_cons.mp hl2 with rfl | hmem
            · simp [piLineAborts] at hab
            · exact ⟨l2, hmem, hab⟩
          by_cases hy : yearPass (some y) ts = true
          · simp only [parsePiGo, if_pos hy]
            exact ih _ _ h2
          · simp only [parsePiGo, if_neg hy]
            exact ih _ _ h2
      | PiLine.other =>
          have h2 : ∃ l ∈ rest, piLineAborts y l = true := by
            rcases h with ⟨l2, hl2, hab⟩
            rcases List.mem_cons.mp hl2 with rfl | hmem
            · simp [piLineAborts] at hab
            · exact ⟨l2, hmem, hab⟩
          simp only [parsePiGo]
          exact ih _ _ h2

theorem parseCodexGo_aborts (y : Nat) :
    ∀ (lines : List CodexLine) (sess : Option SessionData) (M : List MessageData),
      (∃ l ∈ lines, codexLineAborts y l = true) →
      parseCodexGo (some y) sess M lines = (none, []) := by
  intro lines
  induction lines with
  | nil => intro sess M h; simp at h
  | cons l rest ih =>
      intro sess M h
      match l with
      | CodexLine.sessionMeta ts id cwd prov =>
          by_cases hy : yearPass (some y) ts = true
          · have h2 : ∃ l ∈ rest, codexLineAborts y l = true := by
              rcases h with ⟨l2, hl2, hab⟩
              rcases List.mem_cons.mp hl2 with rfl | hmem
              · exfalso; simp [codexLineAborts, hy] at hab
              · exact ⟨l2, hmem, hab⟩
            simp only [parseCodexGo, if_pos hy]
            exact ih _ _ h2
          · simp only [parseCodexGo, if_neg hy]
      | CodexLine.responseItem ts role =>
          have h2 : ∃ l ∈ rest, codexLineAborts y l = true := by
            rcases h with ⟨l2, hl2, hab⟩
            rcases List.mem_cons.mp hl2 with rfl | hmem
            · simp [codexLineAborts] at hab
            · exact ⟨l2, hmem, hab⟩
          by_cases hy : yearPass (some y) ts = true
          · simp only [parseCodexGo, if_pos hy]
            exact ih _ _ h2
          · simp only [parseCodexGo, if_neg hy]
            exact ih _ _ h2
      | CodexLine.eventTokenCount ts info =>
          have h2 : ∃ l ∈ rest, codexLineAborts y l = true := by
            rcases h with ⟨l2, hl2, hab⟩
            rcases List.mem_cons.mp hl2 with rfl | hmem
            · simp [codexLineAborts] at hab
            · exact ⟨l2, hmem, hab⟩
          match info with
          | some u =>
              simp only [parseCodexGo]
              exact ih _ _ h2
          | none =>
              simp only [parseCodexGo]
              exact ih _ _ h2
      | CodexLine.other =>
          have h2 : ∃ l ∈ rest, codexLineAborts y l = true := by
            rcases h with ⟨l2, hl2, hab⟩
            rcases List.mem_cons.mp hl2 with rfl | hmem
            · simp [codexLineAborts] at hab
            · exact ⟨l2, hmem, hab⟩
          simp only [parseCodexGo]
          exact ih _ _ h2

/-- Claim C10: for the Pi (session+message) and Codex (event-log) variants,
when a year filter is supplied and a session-defining line's year differs from
the filter, the parser returns an empty result for the entire file — no session
and no messages, including message lines that appeared earlier in the file than
the session-defining line. -/
theorem c10_year_mismatch_abandons_file :
    (∀ (lines : List PiLine) (y : Nat),
        (∃ l ∈ lines, piLineAborts y l = true) →
        parsePiFile lines (some y) = (none, [])) ∧
    (∀ (lines : List CodexLine) (y : Nat),
        (∃ l ∈ lines, codexLineAborts y l = true) →
        parseCodexFile lines (some y) = (none, [])) := by
  constructor
  · intro lines y h
    exact parsePiGo_aborts y lines none [] h
  · intro lines y h
    exact parseCodexGo_aborts y lines none [] h

/-- Witness for C10: both example files contain a message line followed by a
session-defining line dated 2024, and parsing with filter 2025 drops everything. -/
theorem c10_witness :
    ((∃ l ∈ exC10pi, piLineAborts 2025 l = true) ∧
      parsePiFile exC10pi (some 2025) = (none, [])) ∧
    ((∃ l ∈ exC10codex, codexLineAborts 2025 l = true) ∧
      parseCodexFile exC10codex (some 2025) = (none, [])) := by
  refine ⟨⟨by decide, ?_⟩, ⟨by decide, ?_⟩⟩
  · exact c10_year_mismatch_abandons_file.1 exC10pi 2025 (by decide)
  · exact c10_year_mismatch_abandons_file.2 exC10codex 2025 (by decide)

/-! ## C5: Codex token-count back-attachment -/

theorem attachUsageBack_none (u : Usage) :
    ∀ l : List MessageData, (∀ m ∈ l, ¬usageSlot m) → attachUsageBack u l = (l, false) := by
  intro l
  induction l with
  | nil => intro h; rfl
  | cons m rest ih =>
      intro h
      have hrest := ih (fun m2 hm2 => h m2 (List.mem_cons_of_mem _ hm2))
      have hm : ¬usageSlot m := h m (List.mem_cons_self _ _)
      unfold usageSlot at hm
      simp only [attachUsageBack]
      rw [hrest]
      simp [hm]

theorem attachUsageBack_last (u : Usage) (m : MessageData) (hm : usageSlot m) :
    ∀ (l1 l2 : List MessageData), (∀ m2 ∈ l2, ¬usageSlot m2) →
      attachUsageBack u (l1 ++ m :: l2)
        = (l1 ++ { m with usage := some u } :: l2, true) := by
  intro l1
  induction l1 with
  | nil =>
      intro l2 h2
      obtain ⟨hrole, husage⟩ := hm
      simp only [List.nil_append, attachUsageBack]
      rw [attachUsageBack_none u l2 h2]
      simp [hrole, husage]
  | cons a l1 ih =>
      intro l2 h2
      simp only [List.cons_append, attachUsageBack, List.append_eq]
      rw [ih l2 h2]

/-- Claim C5: in the Codex event-log parser, a token-count event carrying usage
rewrites the message list with `attachUsageBack`, which attaches the usage to the
most recent previously-parsed assistant message lacking usage (scanning
backwards from the end), attaches to at most one message (everything else is
unchanged), and is a no-op when no such message exists; the three-line
session-meta / assistant response-item / token-count file yields exactly one
message whose usage comes from the token-count event. -/
theorem c5_token_count_attachment :
    (∀ (year : Option Nat) (sess : Option SessionData) (M : List MessageData)
        (ts : Nat) (u : CodexUsageRaw) (rest : List CodexLine),
        parseCodexGo year sess M (CodexLine.eventTokenCount ts (some u) :: rest)
          = parseCodexGo year sess (attachUsageBack (codexUsage u) M).1 rest) ∧
    (∀ (u : Usage) (l : List MessageData),
        (∀ m ∈ l, ¬usageSlot m) → attachUsageBack u l = (l, false)) ∧
    (∀ (u : Usage) (m : MessageData) (l1 l2 : List MessageData),
        usageSlot m → (∀ m2 ∈ l2, ¬usageSlot m2) →
        attachUsageBack u (l1 ++ m :: l2)
          = (l1 ++ { m with usage := some u } :: l2, true)) ∧
    parseCodexFile exC5file none =
      (some { id := "cs", timestamp := tsJan1, cwd := "/cw", provider := "openai",
              modelId := "codex", source := Source.codex },
       [{ sessionId := "cs", role := "assistant", timestamp := tsJan1 + 1,
          provider := some "openai", modelId := some "codex",
          usage := some { input := 10, output := 20, cacheRead := none,
                          cacheWrite := none, cost := none },
          source := Source.codex }]) := by
  refine ⟨fun year sess M ts u rest => rfl, attachUsageBack_none,
          fun u m l1 l2 hm h2 => attachUsageBack_last u m hm l1 l2 h2, by decide⟩

/-- Witness for C5: the no-op case on a list with no eligible message, and the
exact-attachment case on a list whose last eligible message sits between an
already-filled assistant message and a trailing user message. -/
theorem c5_witness :
    ((∀ m ∈ ([exMsgUser] : List MessageData), ¬usageSlot m) ∧
      attachUsageBack exUsage [exMsgUser] = ([exMsgUser], false)) ∧
    (usageSlot exMsgSlot ∧
      (∀ m2 ∈ ([exMsgUser] : List MessageData), ¬usageSlot m2) ∧
      attachUsageBack exUsage ([exMsgDone] ++ exMsgSlot :: [exMsgUser])
        = ([exMsgDone] ++ { exMsgSlot with usage := some exUsage } :: [exMsgUser], true)) := by
  refine ⟨⟨by decide, ?_⟩, ⟨by decide, by decide, ?_⟩⟩
  · exact c5_token_count_attachment.2.1 exUsage [exMsgUser] (by decide)
  · exact c5_token_count_attachment.2.2.1 exUsage exMsgSlot [exMsgDone] [exMsgUser]
      (by decide) (by decide)

/-! ## C6: only the Pi parser populates usage cost -/

theorem mkClaudeMessage_costFree (r : ClaudeRec) : costFree (mkClaudeMessage r) := by
  intro u hu
  cases h : r.usage with
  | none => simp [mkClaudeMessage, h] at hu
  | some u0 =>
      simp only [mkClaudeMessage, h, Option.map_some] at hu
      cases hu
      rfl

theorem parseClaudeGo_costFree (year : Option Nat) :
    ∀ (lines : List ClaudeLine) (S : List (String × SessionData)) (M : List MessageData),
      (∀ m ∈ M, costFree m) →
      ∀ m ∈ (parseClaudeGo year S M lines).2, costFree m := by
  intro lines
  induction lines with
  | nil => intro S M hM; exact hM
  | cons l rest ih =>
      intro S M hM
      match l with
      | ClaudeLine.malformed => exact ih S M hM
      | ClaudeLine.line r =>
          simp only [parseClaudeGo]
          by_cases hg : r.type = "" ∨ r.sessionId = ""
          · rw [if_pos hg]; exact ih S M hM
          · rw [if_neg hg]
            by_cases hy : yearPass year r.timestamp = true
            · rw [if_pos hy]
              refine ih _ _ ?_
              by_cases hr : r.type = "user" ∨ r.type = "assistant"
              · rw [if_pos hr]
                intro m hm
                rcases List.mem_append.mp hm with h1 | h1
                · exact hM m h1
                · rw [List.mem_singleton.mp h1]
                  exact mkClaudeMessage_costFree r
              · rw [if_neg hr]; exact hM
            · rw [if_neg hy]; exact ih S M hM

theorem claudeInsert_messages (a : ClaudeAcc) (kv : String × SessionData) :
    (claudeInsert a kv).messages = a.messages := by
  unfold claudeInsert
  by_cases h : (alookup kv.1 a.allSessions).isSome <;> simp [h]

theorem claudeInsertFold_messages (l : List (String × SessionData)) :
    ∀ a, (l.foldl claudeInsert a).messages = a.messages := by
  induction l with
  | nil => intro a; rfl
  | cons kv rest ih => intro a; rw [List.foldl_cons, ih, claudeInsert_messages]

theorem collectClaude_costFree (year : Option Nat) :
    ∀ (files : List (List ClaudeLine)) (a : ClaudeAcc),
      (∀ m ∈ a.messages, costFree m) →
      ∀ m ∈ (files.foldl (claudeStep year) a).messages, costFree m := by
  intro files
  induction files with
  | nil => intro a h; exact h
  | cons f rest ih =>
      intro a h
      refine ih _ ?_
      intro m hm
      simp only [claudeStep] at hm
      rw [claudeInsertFold_messages] at hm
      rcases List.mem_append.mp hm with h1 | h1
      · exact h m h1
      · exact parseClaudeGo_costFree year f [] [] (by simp) m h1

theorem codexMessage_costFree (sess : Option SessionData) (ts : Nat) (role : String) :
    costFree (codexMessage sess ts role) := by
  intro u hu
  simp [codexMessage] at hu

theorem attachUsageBack_costFree (u : Usage) (hu : u.cost = none) :
    ∀ l : List MessageData, (∀ m ∈ l, costFree m) →
      ∀ m ∈ (attachUsageBack u l).1, costFree m := by
  intro l
  induction l with
  | nil => intro h m hm; simp [attachUsageBack] at hm
  | cons a rest ih =>
      intro h m hm
      have ha : costFree a := h a (List.mem_cons_self _ _)
      have hrest : ∀ m2 ∈ rest, costFree m2 :=
        fun m2 hm2 => h m2 (List.mem_cons_of_mem _ hm2)
      simp only [attachUsageBack] at hm
      cases hrec : attachUsageBack u rest with
      | mk rest2 b =>
          rw [hrec] at hm
          cases b with
          | true =>
              simp only [] at hm
              rcases List.mem_cons.mp hm with rfl | hm2
              · exact ha
              · exact ih hrest m (by rw [hrec]; exact hm2)
          | false =>
              simp only [] at hm
              by_cases hc : a.role = "assistant" ∧ a.usage = none
              · rw [if_pos hc] at hm
                rcases List.mem_cons.mp hm with rfl | hm2
                · intro u2 hu2
                  simp only [] at hu2
                  cases hu2
                  exact hu
                · exact hrest m hm2
              · rw [if_neg hc] at hm
                rcases List.mem_cons.mp hm with rfl | hm2
                · exact ha
                · exact hrest m hm2

theorem parseCodexGo_costFree (year : Option Nat) :
    ∀ (lines : List CodexLine) (sess : Option SessionData) (M : List MessageData),
      (∀ m ∈ M, costFree m) →
      ∀ m ∈ (parseCodexGo year sess M lines).2, costFree m := by
  intro lines
  induction lines with
  | nil => intro sess M hM; exact hM
  | cons l rest ih =>
      intro sess M hM
      match l with
      | CodexLine.other => exact ih sess M hM
      | CodexLine.sessionMeta ts id cwd prov =>
          simp only [parseCodexGo]
          by_cases hy : yearPass year ts = true
          · rw [if_pos hy]; exact ih _ M hM
          · rw [if_neg hy]; intro m hm; simp at hm
      | CodexLine.responseItem ts role =>
          simp only [parseCodexGo]
          by_cases hy : yearPass year ts = true
          · rw [if_pos hy]
            refine ih sess _ ?_
            intro m hm
            rcases List.mem_append.mp hm with h1 | h1
            · exact hM m h1
            · rw [List.mem_singleton.mp h1]
              exact codexMessage_costFree sess ts role
          · rw [if_neg hy]; exact ih sess M hM
      | CodexLine.eventTokenCount ts info =>
          match info with
          | some u =>
              simp only [parseCodexGo]
              exact ih sess _ (attachUsageBack_costFree (codexUsage u) rfl M hM)
          | none => exact ih sess M hM

theorem collectCodex_costFree (year : Option Nat) :
    ∀ (files : List (List CodexLine)) (acc : CollectAcc),
      (∀ m ∈ acc.messages, costFree m) →
      ∀ m ∈ (files.foldl (codexStep year) acc).messages, costFree m := by
  intro files
  induction files with
  | nil => intro acc h; exact h
  | cons f rest ih =>
      intro acc h
      refine ih _ ?_
      intro m hm
      simp only [codexStep] at hm
      rcases hs : (parseCodexFile f year).1 with _ | s <;> rw [hs] at hm <;>
        simp only [] at hm <;> rcases List.mem_append.mp hm with h1 | h1
      · exact h m h1
      · exact parseCodexGo_costFree year f none [] (by simp) m h1
      · exact h m h1
      · exact parseCodexGo_costFree year f none [] (by simp) m h1

theorem ocMessage_costFree (d : OCMessageDoc) : costFree (ocMessage d) := by
  intro u hu
  cases h : d.tokens with
  | none => simp [ocMessage, h] at hu
  | some t =>
      simp only [ocMessage, h, Option.map_some] at hu
      cases hu
      rfl

theorem collectOpenCode_msgs_costFree (year : Option Nat) :
    ∀ (docs : List OCMessageDoc) (ms : List MessageData),
      (∀ m ∈ ms, costFree m) →
      ∀ m ∈ (docs.foldl (ocMsgStep year) ms), costFree m := by
  intro docs
  induction docs with
  | nil => intro ms h; exact h
  | cons d rest ih =>
      intro ms h
      refine ih _ ?_
      intro m hm
      unfold ocMsgStep at hm
      by_cases hy : yearPass year d.created = true
      · rw [if_pos hy] at hm
        rcases List.mem_append.mp hm with h1 | h1
        · exact h m h1
        · rw [List.mem_singleton.mp h1]
          exact ocMessage_costFree d
      · rw [if_neg hy] at hm
        exact h m hm

theorem statsFold_cost (ms : List MessageData) :
    ∀ acc : StatsAcc, (∀ m ∈ ms, costFree m) →
      (ms.foldl statsStep acc).cost = acc.cost := by
  induction ms with
  | nil => intro acc h; rfl
  | cons m rest ih =>
      intro acc h
      rw [List.foldl_cons, ih _ (fun x hx => h x (List.mem_cons_of_mem _ hx))]
      have hm := h m (List.mem_cons_self _ _)
      cases hu : m.usage with
      | none => simp [statsStep, hu]
      | some u => simp [statsStep, hu, costAdd, hm u hu]

theorem calculateStats_cost_zero (fs : FileSystem) (year now : Nat)
    (h : ∀ m ∈ (collectAll fs none).messages, costFree m) :
    (calculateStats year fs now).totalCost = 0 := by
  simp only [calculateStats]
  rw [statsFold_cost]
  · rfl
  · intro m hm
    exact h m (List.mem_of_mem_filter hm)

/-- Claim C6: `totalCost` can be non-zero only for the pi source — the cost
accumulation reads only `usage.cost.total`, and the Claude, Codex and OpenCode
normalizers never populate the usage cost (line-level `costUSD` and per-message
`cost` are never copied), so `totalCost` is 0 for those sources; a Pi usage
block carrying a cost does flow into `totalCost`. -/
theorem c6_total_cost_only_pi :
    (∀ (files : List (List ClaudeLine)) (year now : Nat),
        (calculateStats year (FileSystem.claude files) now).totalCost = 0) ∧
    (∀ (files : List (List CodexLine)) (year now : Nat),
        (calculateStats year (FileSystem.codex files) now).totalCost = 0) ∧
    (∀ (sd : List OCSessionDoc) (md : List OCMessageDoc) (year now : Nat),
        (calculateStats year (FileSystem.opencode sd md) now).totalCost = 0) ∧
    (calculateStats 2025 exC6fs 0).totalCost = 5 := by
  refine ⟨?_, ?_, ?_, by decide⟩
  · intro files year now
    refine calculateStats_cost_zero _ year now ?_
    intro m hm
    exact collectClaude_costFree none files _ (by simp) m hm
  · intro files year now
    refine calculateStats_cost_zero _ year now ?_
    intro m hm
    exact collectCodex_costFree none files emptyAcc (by simp [emptyAcc]) m hm
  · intro sd md year now
    refine calculateStats_cost_zero _ year now ?_
    intro m hm
    exact collectOpenCode_msgs_costFree none md [] (by simp) m hm

/-! ## C3: Claude session registration and message emission -/

theorem orElseO_none {β : Type} (a : Option β) : orElseO a none = a := by
  cases a <;> rfl

theorem orElseO_some_left {β : Type} (a : Option β) (b : Option β) (h : a.isSome) :
    orElseO a b = a := by
  cases a
  · simp at h
  · rfl

theorem alookup_append {α β : Type} [DecidableEq α] (k : α) (l1 l2 : List (α × β)) :
    alookup k (l1 ++ l2) = orElseO (alookup k l1) (alookup k l2) := by
  induction l1 with
  | nil => rfl
  | cons p rest ih =>
      obtain ⟨k2, v⟩ := p
      by_cases h : k2 = k
      · simp [alookup, h, orElseO]
      · simp [alookup, h, ih]

theorem alookup_eq_none_iff {α β : Type} [DecidableEq α] (k : α) (l : List (α × β)) :
    alookup k l = none ↔ k ∉ l.map Prod.fst := by
  induction l with
  | nil => simp [alookup]
  | cons p rest ih =>
      obtain ⟨k2, v⟩ := p
      by_cases h : k2 = k
      · simp [alookup, h]
      · simp only [alookup, if_neg h, List.map_cons, List.mem_cons]
        rw [ih]
        constructor
        · intro hk
          rintro (rfl | hmem)
          · exact h rfl
          · exact hk hmem
        · intro hk hmem
          exact hk (Or.inr hmem)

theorem claudeAccept_line_accepted (year : Option Nat) (r : ClaudeRec)
    (hg : ¬(r.type = "" ∨ r.sessionId = "")) (hy : yearPass year r.timestamp = true) :
    claudeAccept year (ClaudeLine.line r) = some r := by
  simp only [claudeAccept]
  rw [if_neg]
  push_neg
  refine ⟨?_, by simp [hy]⟩
  push_neg at hg
  exact hg

theorem claudeAccept_line_guard (year : Option Nat) (r : ClaudeRec)
    (hg : r.type = "" ∨ r.sessionId = "") :
    claudeAccept year (ClaudeLine.line r) = none := by
  simp only [claudeAccept]
  rw [if_pos (Or.inl hg)]

theorem claudeAccept_line_year (year : Option Nat) (r : ClaudeRec)
    (hy : ¬(yearPass year r.timestamp = true)) :
    claudeAccept year (ClaudeLine.line r) = none := by
  simp only [claudeAccept]
  rw [if_pos (Or.inr (by simpa using hy))]

theorem parseClaudeGo_messages (year : Option Nat) :
    ∀ (lines : List ClaudeLine) (S : List (String × SessionData)) (M : List MessageData),
      (parseClaudeGo year S M lines).2 = M ++ claudeMsgsOf year lines := by
  intro lines
  induction lines with
  | nil => intro S M; simp [parseClaudeGo, claudeMsgsOf, claudeAccepted]
  | cons l rest ih =>
      intro S M
      match l with
      | ClaudeLine.malformed =>
          rw [show parseClaudeGo year S M (ClaudeLine.malformed :: rest)
              = parseClaudeGo year S M rest from rfl, ih]
          simp [claudeMsgsOf, claudeAccepted, claudeAccept]
      | ClaudeLine.line r =>
          simp only [parseClaudeGo]
          by_cases hg : r.type = "" ∨ r.sessionId = ""
          · rw [if_pos hg, ih]
            simp [claudeMsgsOf, claudeAccepted, claudeAccept_line_guard year r hg]
          · rw [if_neg hg]
            by_cases hy : yearPass year r.timestamp = true
            · rw [if_pos hy, ih]
              have hacc := claudeAccept_line_accepted year r hg hy
              by_cases hr : r.type = "user" ∨ r.type = "assistant"
              · rw [if_pos hr]
                have hb : isUserOrAssistant r = true := by
                  simp [isUserOrAssistant, hr]
                simp [claudeMsgsOf, claudeAccepted, hacc, hb]
              · rw [if_neg hr]
                have hb : isUserOrAssistant r = false := by
                  simp only [isUserOrAssistant, decide_eq_false_iff_not]
                  exact hr
                simp [claudeMsgsOf, claudeAccepted, hacc, hb]
            · rw [if_neg hy, ih]
              simp [claudeMsgsOf, claudeAccepted, claudeAccept_line_year year r hy]

theorem parseClaudeGo_sessions (year : Option Nat) :
    ∀ (lines : List ClaudeLine) (S : List (String × SessionData)) (M : List MessageData)
      (id : String),
      alookup id (parseClaudeGo year S M lines).1
        = orElseO (alookup id S) (claudeFirstSession year lines id) := by
  intro lines
  induction lines with
  | nil =>
      intro S M id
      simp [parseClaudeGo, claudeFirstSession, claudeAccepted, orElseO_none]
  | cons l rest ih =>
      intro S M id
      match l with
      | ClaudeLine.malformed =>
          rw [show parseClaudeGo year S M (ClaudeLine.malformed :: rest)
              = parseClaudeGo year S M rest from rfl, ih]
          simp [claudeFirstSession, claudeAccepted, claudeAccept]
      | ClaudeLine.line r =>
          simp only [parseClaudeGo]
          by_cases hg : r.type = "" ∨ r.sessionId = ""
          · rw [if_pos hg, ih]
            simp [claudeFirstSession, claudeAccepted, claudeAccept_line_guard year r hg]
          · rw [if_neg hg]
            by_cases hy : yearPass year r.timestamp = true
            · rw [if_pos hy, ih]
              have hacc := claudeAccept_line_accepted year r hg hy
              have hfs : claudeFirstSession year (ClaudeLine.line r :: rest) id
                  = if r.sessionId = id then some (mkClaudeSession r)
                    else claudeFirstSession year rest id := by
                simp only [claudeFirstSession, claudeAccepted, List.filterMap_cons, hacc]
                by_cases he : r.sessionId = id
                · rw [List.find?_cons_of_pos _ (by simp [he]), if_pos he]
                  rfl
                · rw [List.find?_cons_of_neg _ (by simp [he]), if_neg he]
              rw [hfs]
              by_cases hs : (alookup r.sessionId S).isSome
              · rw [if_pos hs]
                by_cases he : r.sessionId = id
                · subst he
                  rw [if_pos rfl, orElseO_some_left _ _ hs, orElseO_some_left _ _ hs]
                · rw [if_neg he]
              · rw [if_neg hs]
                rw [alookup_append]
                by_cases he : r.sessionId = id
                · subst he
                  have hnone : alookup r.sessionId S = none := by
                    cases hv : alookup r.sessionId S
                    · rfl
                    · exact absurd (by rw [hv]; rfl) hs
                  rw [hnone, if_pos rfl]
                  simp [alookup, orElseO]
                · rw [if_neg he]
                  have h1 : alookup id [(r.sessionId, mkClaudeSession r)] = none := by
                    simp [alookup, he]
                  rw [h1, orElseO_none]
            · rw [if_neg hy, ih]
              simp [claudeFirstSession, claudeAccepted, claudeAccept_line_year year r hy]

theorem parseClaudeGo_nodup_keys (year : Option Nat) :
    ∀ (lines : List ClaudeLine) (S : List (String × SessionData)) (M : List MessageData),
      (S.map Prod.fst).Nodup → ((parseClaudeGo year S M lines).1.map Prod.fst).Nodup := by
  intro lines
  induction lines with
  | nil => intro S M h; exact h
  | cons l rest ih =>
      intro S M h
      match l with
      | ClaudeLine.malformed => exact ih S M h
      | ClaudeLine.line r =>
          simp only [parseClaudeGo]
          by_cases hg : r.type = "" ∨ r.sessionId = ""
          · rw [if_pos hg]; exact ih S M h
          · rw [if_neg hg]
            by_cases hy : yearPass year r.timestamp = true
            · rw [if_pos hy]
              refine ih _ _ ?_
              by_cases hs : (alookup r.sessionId S).isSome
              · rw [if_pos hs]; exact h
              · rw [if_neg hs]
                have hnone : alookup r.sessionId S = none := by
                  cases hv : alookup r.sessionId S
                  · rfl
                  · exact absurd (by rw [hv]; rfl) hs
                have hnotin : r.sessionId ∉ S.map Prod.fst :=
                  (alookup_eq_none_iff _ _).mp hnone
                have hperm : (S.map Prod.fst ++ [r.sessionId]).Perm
                    (r.sessionId :: S.map Prod.fst) := List.perm_append_singleton _ _
                rw [List.map_append]
                refine hperm.nodup_iff.mpr ?_
                exact List.nodup_cons.mpr ⟨hnotin, h⟩
            · rw [if_neg hy]; exact ih S M h

theorem parseClaudeGo_id_eq_key (year : Option Nat) :
    ∀ (lines : List ClaudeLine) (S : List (String × SessionData)) (M : List MessageData),
      (∀ kv ∈ S, (kv : String × SessionData).2.id = kv.1) →
      ∀ kv ∈ (parseClaudeGo year S M lines).1, (kv : String × SessionData).2.id = kv.1 := by
  intro lines
  induction lines with
  | nil => intro S M h; exact h
  | cons l rest ih =>
      intro S M h
      match l with
      | ClaudeLine.malformed => exact ih S M h
      | ClaudeLine.line r =>
          simp only [parseClaudeGo]
          by_cases hg : r.type = "" ∨ r.sessionId = ""
          · rw [if_pos hg]; exact ih S M h
          · rw [if_neg hg]
            by_cases hy : yearPass year r.timestamp = true
            · rw [if_pos hy]
              refine ih _ _ ?_
              by_cases hs : (alookup r.sessionId S).isSome
              · rw [if_pos hs]; exact h
              · rw [if_neg hs]
                intro kv hkv
                rcases List.mem_append.mp hkv with h1 | h1
                · exact h kv h1
                · rw [List.mem_singleton.mp h1]
                  rfl
            · rw [if_neg hy]; exact ih S M h

/-- Claim C3 (amended): in the Claude parser, a session is registered exactly
once per id, first-seen-wins, the first time the id appears on ANY decodable
line with non-empty `type` and `sessionId` passing the year filter (not only
user/assistant lines); every accepted user/assistant line also yields a
message, and only those lines yield messages. -/
theorem c3_amended_claude_registration (lines : List ClaudeLine) (year : Option Nat) :
    ((parseClaudeFile lines year).1.map Prod.fst).Nodup ∧
    (∀ id, alookup id (parseClaudeFile lines year).1 = claudeFirstSession year lines id) ∧
    (parseClaudeFile lines year).2 = claudeMsgsOf year lines := by
  refine ⟨parseClaudeGo_nodup_keys year lines [] [] (by simp), ?_, ?_⟩
  · intro id
    rw [show parseClaudeFile lines year = parseClaudeGo year [] [] lines from rfl,
        parseClaudeGo_sessions year lines [] [] id]
    rfl
  · rw [show parseClaudeFile lines year = parseClaudeGo year [] [] lines from rfl,
        parseClaudeGo_messages year lines [] []]
    rfl

/-- Counterexample to C3 as stated: a line whose `type` is "system" (neither
"user" nor "assistant") registers a session while yielding no message, so
lines of other kinds DO register sessions. -/
theorem c3_counterexample :
    (parseClaudeFile [ClaudeLine.line exC3rec] none).1
        = [("sess1", mkClaudeSession exC3rec)] ∧
    exC3rec.type ≠ "user" ∧ exC3rec.type ≠ "assistant" ∧
    (parseClaudeFile [ClaudeLine.line exC3rec] none).2 = [] := by
  decide

/-! ## C4: session-id uniqueness -/

theorem claudeInsert_inv (a : ClaudeAcc) (kv : String × SessionData)
    (hkey : kv.2.id = kv.1)
    (hnd : (a.allSessions.map Prod.fst).Nodup)
    (hid : ∀ p ∈ a.allSessions, (p : String × SessionData).2.id = p.1) :
    ((claudeInsert a kv).allSessions.map Prod.fst).Nodup ∧
    (∀ p ∈ (claudeInsert a kv).allSessions, (p : String × SessionData).2.id = p.1) := by
  unfold claudeInsert
  by_cases hs : (alookup kv.1 a.allSessions).isSome
  · rw [if_pos hs]
    exact ⟨hnd, hid⟩
  · rw [if_neg hs]
    have hnone : alookup kv.1 a.allSessions = none := by
      cases hv : alookup kv.1 a.allSessions
      · rfl
      · exact absurd (by rw [hv]; rfl) hs
    have hnotin : kv.1 ∉ a.allSessions.map Prod.fst :=
      (alookup_eq_none_iff _ _).mp hnone
    constructor
    · have hperm : (a.allSessions.map Prod.fst ++ [kv.1]).Perm
          (kv.1 :: a.allSessions.map Prod.fst) := List.perm_append_singleton _ _
      simp only [List.map_append, List.map_cons, List.map_nil]
      exact hperm.nodup_iff.mpr (List.nodup_cons.mpr ⟨hnotin, hnd⟩)
    · intro p hp
      rcases List.mem_append.mp hp with h1 | h1
      · exact hid p h1
      · rw [List.mem_singleton.mp h1]
        exact hkey

theorem claudeInsertFold_inv (l : List (String × SessionData))
    (hl : ∀ p ∈ l, (p : String × SessionData).2.id = p.1) :
    ∀ a : ClaudeAcc,
      (a.allSessions.map Prod.fst).Nodup →
      (∀ p ∈ a.allSessions, (p : String × SessionData).2.id = p.1) →
      ((l.foldl claudeInsert a).allSessions.map Prod.fst).Nodup ∧
      (∀ p ∈ (l.foldl claudeInsert a).allSessions,
        (p : String × SessionData).2.id = p.1) := by
  induction l with
  | nil => intro a hnd hid; exact ⟨hnd, hid⟩
  | cons kv rest ih =>
      intro a hnd hid
      have hkv := hl kv (List.mem_cons_self _ _)
      have hrest : ∀ p ∈ rest, (p : String × SessionData).2.id = p.1 :=
        fun p hp => hl p (List.mem_cons_of_mem _ hp)
      obtain ⟨hnd2, hid2⟩ := claudeInsert_inv a kv hkv hnd hid
      exact (ih hrest) _ hnd2 hid2

theorem claudeStep_allSessions (year : Option Nat) (a : ClaudeAcc) (f : List ClaudeLine) :
    (claudeStep year a f).allSessions
      = ((parseClaudeFile f year).1.foldl claudeInsert a).allSessions := rfl

theorem collectClaudeFold_inv (year : Option Nat) :
    ∀ (files : List (List ClaudeLine)) (a : ClaudeAcc),
      (a.allSessions.map Prod.fst).Nodup →
      (∀ p ∈ a.allSessions, (p : String × SessionData).2.id = p.1) →
      ((files.foldl (claudeStep year) a).allSessions.map Prod.fst).Nodup ∧
      (∀ p ∈ (files.foldl (claudeStep year) a).allSessions,
        (p : String × SessionData).2.id = p.1) := by
  intro files
  induction files with
  | nil => intro a hnd hid; exact ⟨hnd, hid⟩
  | cons f rest ih =>
      intro a hnd hid
      have hfile : ∀ p ∈ (parseClaudeFile f year).1,
          (p : String × SessionData).2.id = p.1 :=
        parseClaudeGo_id_eq_key year f [] [] (by simp)
      have h2 := claudeInsertFold_inv (parseClaudeFile f year).1 hfile a hnd hid
      refine ih _ ?_ ?_
      · rw [claudeStep_allSessions]; exact h2.1
      · rw [claudeStep_allSessions]; exact h2.2

/-- Claim C4 (amended): after the merge step, the Claude source's session
collection has pairwise-distinct identifiers (first-registered-wins
de-duplication by session id); the other sources perform no de-duplication, so
their outputs need not have distinct ids (see the counterexample). -/
theorem c4_amended_claude_ids_nodup (files : List (List ClaudeLine)) (year : Option Nat) :
    ((collectAll (FileSystem.claude files) year).sessions.map (fun s => s.id)).Nodup := by
  have h := collectClaudeFold_inv year files
    { allSessions := [], messages := [], projectMap := [] } (by simp) (by simp)
  show ((collectClaude files year).sessions.map (fun s => s.id)).Nodup
  simp only [collectClaude]
  rw [List.map_map]
  have heq : ((files.foldl (claudeStep year)
        { allSessions := [], messages := [], projectMap := [] }).allSessions.map
          ((fun s => s.id) ∘ Prod.snd))
      = ((files.foldl (claudeStep year)
        { allSessions := [], messages := [], projectMap := [] }).allSessions.map
          Prod.fst) := by
    refine List.map_congr_left ?_
    intro p hp
    exact h.2 p hp
  rw [heq]
  exact h.1

/-- Counterexample to C4 as stated: for the pi source, two files declaring the
same session id contribute two session records with equal ids — no
de-duplication happens for this source. -/
theorem c4_counterexample :
    ¬ (((collectAll exC4fs none).sessions.map (fun s => s.id)).Nodup) ∧
    (collectAll exC4fs none).sessions.map (fun s => s.id) = ["dup", "dup"] := by
  refine ⟨?_, by decide⟩
  intro h
  rw [show (collectAll exC4fs none).sessions.map (fun s => s.id) = ["dup", "dup"]
    from by decide] at h
  simp at h

/-! ## C1: the project list is derived from the UNFILTERED session set -/

theorem bump_keys_toFinset {α : Type} [DecidableEq α] (k : α) (l : List (α × Nat)) :
    ((bump k l).map Prod.fst).toFinset = insert k (l.map Prod.fst).toFinset := by
  induction l with
  | nil => simp [bump]
  | cons p rest ih =>
      obtain ⟨k2, c⟩ := p
      by_cases h : k2 = k
      · subst h
        simp [bump]
      · simp only [bump, if_neg h, List.map_cons, List.toFinset_cons, ih]
        rw [Finset.Insert.comm]

theorem bump_keys_nodup {α : Type} [DecidableEq α] (k : α) (l : List (α × Nat))
    (h : (l.map Prod.fst).Nodup) : ((bump k l).map Prod.fst).Nodup := by
  induction l with
  | nil => simp [bump]
  | cons p rest ih =>
      obtain ⟨k2, c⟩ := p
      simp only [List.map_cons, List.nodup_cons] at h
      by_cases hk : k2 = k
      · simp only [bump, if_pos hk, List.map_cons, List.nodup_cons]
        exact h
      · simp only [bump, if_neg hk, List.map_cons, List.nodup_cons]
        refine ⟨?_, ih h.2⟩
        intro hmem
        have : k2 ∈ insert k (rest.map Prod.fst).toFinset := by
          rw [← bump_keys_toFinset]
          exact List.mem_toFinset.mpr hmem
        rcases Finset.mem_insert.mp this with h1 | h1
        · exact hk h1
        · exact h.1 (List.mem_toFinset.mp h1)

theorem append_singleton_toFinset {α : Type} [DecidableEq α] (l : List α) (a : α) :
    (l ++ [a]).toFinset = insert a l.toFinset := by
  rw [List.toFinset_append, Finset.union_comm]
  simp [Finset.insert_eq]

theorem piFold_inv (year : Option Nat) :
    ∀ (files : List (List PiLine)) (acc : CollectAcc),
      (acc.projectMap.map Prod.fst).Nodup →
      (acc.projectMap.map Prod.fst).toFinset
        = (acc.sessions.map (fun s => s.cwd)).toFinset →
      ((files.foldl (piStep year) acc).projectMap.map Prod.fst).Nodup ∧
      ((files.foldl (piStep year) acc).projectMap.map Prod.fst).toFinset
        = ((files.foldl (piStep year) acc).sessions.map (fun s => s.cwd)).toFinset := by
  intro files
  induction files with
  | nil => intro acc h1 h2; exact ⟨h1, h2⟩
  | cons f rest ih =>
      intro acc h1 h2
      refine ih _ ?_ ?_
      · simp only [piStep]
        cases hres : (parsePiFile f year).1 with
        | none => simp only [hres]; exact h1
        | some s => simp only [hres]; exact bump_keys_nodup _ _ h1
      · simp only [piStep]
        cases hres : (parsePiFile f year).1 with
        | none => simp only [hres]; exact h2
        | some s =>
            simp only [hres]
            simp only [bump_keys_toFinset, h2, List.map_append, List.map_cons,
              List.map_nil, append_singleton_toFinset]

theorem codexFold_inv (year : Option Nat) :
    ∀ (files : List (List CodexLine)) (acc : CollectAcc),
      (acc.projectMap.map Prod.fst).Nodup →
      (acc.projectMap.map Prod.fst).toFinset
        = (acc.sessions.map (fun s => s.cwd)).toFinset →
      ((files.foldl (codexStep year) acc).projectMap.map Prod.fst).Nodup ∧
      ((files.foldl (codexStep year) acc).projectMap.map Prod.fst).toFinset
        = ((files.foldl (codexStep year) acc).sessions.map (fun s => s.cwd)).toFinset := by
  intro files
  induction files with
  | nil => intro acc h1 h2; exact ⟨h1, h2⟩
  | cons f rest ih =>
      intro acc h1 h2
      refine ih _ ?_ ?_
      · simp only [codexStep]
        cases hres : (parseCodexFile f year).1 with
        | none => simp only [hres]; exact h1
        | some s => simp only [hres]; exact bump_keys_nodup _ _ h1
      · simp only [codexStep]
        cases hres : (parseCodexFile f year).1 with
        | none => simp only [hres]; exact h2
        | some s =>
            simp only [hres]
            simp only [bump_keys_toFinset, h2, List.map_append, List.map_cons,
              List.map_nil, append_singleton_toFinset]

theorem ocSessFold_inv (year : Option Nat) :
    ∀ (docs : List OCSessionDoc) (acc : CollectAcc),
      (acc.projectMap.map Prod.fst).Nodup →
      (acc.projectMap.map Prod.fst).toFinset
        = (acc.sessions.map (fun s => s.cwd)).toFinset →
      ((docs.foldl (ocSessStep year) acc).projectMap.map Prod.fst).Nodup ∧
      ((docs.foldl (ocSessStep year) acc).projectMap.map Prod.fst).toFinset
        = ((docs.foldl (ocSessStep year) acc).sessions.map (fun s => s.cwd)).toFinset := by
  intro docs
  induction docs with
  | nil => intro acc h1 h2; exact ⟨h1, h2⟩
  | cons d rest ih =>
      intro acc h1 h2
      refine ih _ ?_ ?_
      · unfold ocSessStep
        by_cases hy : yearPass year d.created = true
        · rw [if_pos hy]
          exact bump_keys_nodup _ _ h1
        · rw [if_neg hy]
          exact h1
      · unfold ocSessStep
        by_cases hy : yearPass year d.created = true
        · rw [if_pos hy]
          simp only [bump_keys_toFinset, h2, List.map_append, List.map_cons,
            List.map_nil, append_singleton_toFinset]
          rfl
        · rw [if_neg hy]
          exact h2

theorem claudeFold_proj_inv (year : Option Nat) :
    ∀ (files : List (List ClaudeLine)) (a : ClaudeAcc),
      (a.projectMap.map Prod.fst).Nodup →
      (a.projectMap.map Prod.fst).toFinset
        = (a.allSessions.map (fun p => p.2.cwd)).toFinset →
      ((files.foldl (claudeStep year) a).projectMap.map Prod.fst).Nodup ∧
      ((files.foldl (claudeStep year) a).projectMap.map Prod.fst).toFinset
        = ((files.foldl (claudeStep year) a).allSessions.map
            (fun p => p.2.cwd)).toFinset := by
  have hins : ∀ (l : List (String × SessionData)) (a : ClaudeAcc),
      (a.projectMap.map Prod.fst).Nodup →
      (a.projectMap.map Prod.fst).toFinset
        = (a.allSessions.map (fun p => p.2.cwd)).toFinset →
      ((l.foldl claudeInsert a).projectMap.map Prod.fst).Nodup ∧
      ((l.foldl claudeInsert a).projectMap.map Prod.fst).toFinset
        = ((l.foldl claudeInsert a).allSessions.map (fun p => p.2.cwd)).toFinset := by
    intro l
    induction l with
    | nil => intro a h1 h2; exact ⟨h1, h2⟩
    | cons kv rest ih =>
        intro a h1 h2
        refine ih _ ?_ ?_
        · unfold claudeInsert
          by_cases hs : (alookup kv.1 a.allSessions).isSome
          · rw [if_pos hs]; exact h1
          · rw [if_neg hs]; exact bump_keys_nodup _ _ h1
        · unfold claudeInsert
          by_cases hs : (alookup kv.1 a.allSessions).isSome
          · rw [if_pos hs]; exact h2
          · rw [if_neg hs]
            simp only [bump_keys_toFinset, h2, List.map_append, List.map_cons,
              List.map_nil, append_singleton_toFinset]
  intro files
  induction files with
  | nil => intro a h1 h2; exact ⟨h1, h2⟩
  | cons f rest ih =>
      intro a h1 h2
      have h3 := hins (parseClaudeFile f year).1 a h1 h2
      exact ih _ h3.1 h3.2

theorem collectAll_projects_card (fs : FileSystem) (year : Option Nat) :
    (collectAll fs year).projects.length
      = ((collectAll fs year).sessions.map (fun s => s.cwd)).toFinset.card := by
  have hlen : ∀ (src : Source) (pm : List (String × Nat)),
      (projectsOf src pm).length = (pm.map Prod.fst).length := by
    intro src pm
    simp [projectsOf]
  cases fs with
  | pi files =>
      have h := piFold_inv year files emptyAcc (by simp [emptyAcc]) (by simp [emptyAcc])
      show (collectPi files year).projects.length
        = ((collectPi files year).sessions.map (fun s => s.cwd)).toFinset.card
      simp only [collectPi]
      rw [hlen, ← h.2, List.toFinset_card_of_nodup h.1]
  | codex files =>
      have h := codexFold_inv year files emptyAcc (by simp [emptyAcc]) (by simp [emptyAcc])
      show (collectCodex files year).projects.length
        = ((collectCodex files year).sessions.map (fun s => s.cwd)).toFinset.card
      simp only [collectCodex]
      rw [hlen, ← h.2, List.toFinset_card_of_nodup h.1]
  | opencode sd md =>
      have h := ocSessFold_inv year sd emptyAcc (by simp [emptyAcc]) (by simp [emptyAcc])
      show (collectOpenCode sd md year).projects.length
        = ((collectOpenCode sd md year).sessions.map (fun s => s.cwd)).toFinset.card
      simp only [collectOpenCode]
      rw [hlen, ← h.2, List.toFinset_card_of_nodup h.1]
  | claude files =>
      have h := claudeFold_proj_inv year files
        { allSessions := [], messages := [], projectMap := [] } (by simp) (by simp)
      show (collectClaude files year).projects.length
        = ((collectClaude files year).sessions.map (fun s => s.cwd)).toFinset.card
      simp only [collectClaude]
      have hmm : (List.map (fun s : SessionData => s.cwd)
            (List.map Prod.snd (files.foldl (claudeStep year)
              { allSessions := [], messages := [], projectMap := [] }).allSessions))
          = List.map (fun p : String × SessionData => p.2.cwd)
              ((files.foldl (claudeStep year)
                { allSessions := [], messages := [], projectMap := [] }).allSessions) := by
        rw [List.map_map]
        rfl
      rw [hlen, hmm, ← h.2, List.toFinset_card_of_nodup h.1]

/-- Claim C1 (amended): `totalProjects` equals the number of distinct
working-directory paths among ALL of the source's sessions — the statistics
engine invokes the collector with NO year filter and uses that project list
as-is, so the project total is lifetime, not year-filtered (unlike the session
and message totals, which are re-filtered locally). -/
theorem c1_amended_projects_lifetime (year : Nat) (fs : FileSystem) (now : Nat) :
    (calculateStats year fs now).totalProjects
      = (((collectAll fs none).sessions).map (fun s => s.cwd)).toFinset.card := by
  simp only [calculateStats]
  exact collectAll_projects_card fs none

/-- Counterexample to C1 as stated: a Pi source whose only session is dated
2024 still reports `totalProjects = 1` for target year 2025, while the number
of distinct working directories among the target year's sessions is 0. -/
theorem c1_counterexample :
    (calculateStats 2025 exC1fs 0).totalProjects = 1 ∧
    (((collectAll exC1fs none).sessions.filter
        (fun s => yearOfTs s.timestamp == 2025)).map (fun s => s.cwd)).toFinset.card
      = 0 := by
  decide

/-! ## C2: the current streak cannot bridge the year boundary -/

theorem hasKey_iff_mem (act : List (Nat × Nat)) (k : Nat) :
    hasKey act k = true ↔ k ∈ act.map Prod.fst := by
  unfold hasKey
  rw [Option.isSome_iff_ne_none]
  constructor
  · intro h
    by_contra hmem
    exact h ((alookup_eq_none_iff k act).mpr hmem)
  · intro hmem hnone
    exact (alookup_eq_none_iff k act).mp hnone hmem

theorem bump_keys_mem {α : Type} [DecidableEq α] (k k2 : α) (l : List (α × Nat))
    (h : k2 ∈ (bump k l).map Prod.fst) : k2 ∈ l.map Prod.fst ∨ k2 = k := by
  have h2 : k2 ∈ insert k (l.map Prod.fst).toFinset := by
    rw [← bump_keys_toFinset]
    exact List.mem_toFinset.mpr h
  rcases Finset.mem_insert.mp h2 with h3 | h3
  · exact Or.inr h3
  · exact Or.inl (List.mem_toFinset.mp h3)

theorem statsFold_daily_keys (year : Nat) :
    ∀ (ms : List MessageData) (acc : StatsAcc),
      (∀ k ∈ acc.daily.map Prod.fst, yearOfDay k = year) →
      (∀ m ∈ ms, yearOfTs m.timestamp = year) →
      ∀ k ∈ (ms.foldl statsStep acc).daily.map Prod.fst, yearOfDay k = year := by
  intro ms
  induction ms with
  | nil => intro acc hacc hms; exact hacc
  | cons m rest ih =>
      intro acc hacc hms
      refine ih _ ?_ (fun m2 hm2 => hms m2 (List.mem_cons_of_mem _ hm2))
      intro k hk
      rw [statsStep_daily] at hk
      rcases bump_keys_mem _ _ _ hk with h1 | h1
      · exact hacc k h1
      · rw [h1]
        exact hms m (List.mem_cons_self _ _)

theorem msPerDay_le_of_day_pos (now : Nat) (h : 1 ≤ now / msPerDay) : msPerDay ≤ now := by
  by_contra hlt
  push_neg at hlt
  rw [Nat.div_eq_of_lt hlt] at h
  omega

theorem yesterday_day_eq (now : Nat) (h : msPerDay ≤ now) :
    (now - msPerDay) / msPerDay = now / msPerDay - 1 := by
  have h2 : (now - msPerDay + msPerDay) / msPerDay = (now - msPerDay) / msPerDay + 1 :=
    Nat.add_div_right _ (by norm_num [msPerDay])
  rw [Nat.sub_add_cancel h] at h2
  rw [h2]
  simp

theorem countBack_one (act : List (Nat × Nat)) (t : Nat) (h : hasKey act t = false) :
    countStreakBackwards act (t + 1) = 1 := by
  simp [countStreakBackwards, h]

theorem currentStreakOf_le_one (act : List (Nat × Nat)) (now : Nat) (year : Nat)
    (hkeys : ∀ k ∈ act.map Prod.fst, yearOfDay k = year)
    (h1 : yearOfDay (now / msPerDay) = year)
    (h2 : yearOfDay (now / msPerDay - 1) ≠ year) :
    currentStreakOf act now ≤ 1 := by
  have htoday1 : 1 ≤ now / msPerDay := by
    rcases Nat.eq_zero_or_pos (now / msPerDay) with h0 | h0
    · exfalso
      apply h2
      rw [h0] at h1 ⊢
      simpa using h1
    · exact h0
  unfold currentStreakOf dayOfTs
  rw [yesterday_day_eq now (msPerDay_le_of_day_pos now htoday1)]
  generalize hqq : now / msPerDay = q at h1 h2 htoday1 ⊢
  obtain ⟨t, rfl⟩ : ∃ t, q = t + 1 := ⟨q - 1, (Nat.succ_pred_eq_of_pos htoday1).symm⟩
  have hnotyest : hasKey act t = false := by
    cases hv : hasKey act t
    · rfl
    · exfalso
      refine h2 ?_
      exact hkeys _ ((hasKey_iff_mem _ _).mp hv)
  cases hkt : hasKey act (t + 1)
  · rw [if_neg (by simp [hkt])]
    rw [show t + 1 - 1 = t from rfl]
    rw [if_neg (by simp [hnotyest])]
    exact Nat.zero_le 1
  · rw [if_pos (by simp [hkt])]
    rw [countBack_one act t hnotyest]

/-- Claim C2 (amended): when "now" is Jan 1 of the target year (a day of the
target year whose previous day lies in a different year), the current streak
reported by `calculateStats` is at most 1 — the daily-activity map is built
from year-filtered messages only, so its keys all lie in the target year and
the backwards walk stops at the year boundary instead of bridging it; prior
December activity is invisible to it. -/
theorem c2_amended_current_streak_at_most_one (year : Nat) (fs : FileSystem) (now : Nat)
    (h1 : yearOfDay (now / msPerDay) = year)
    (h2 : yearOfDay (now / msPerDay - 1) ≠ year) :
    (calculateStats year fs now).currentStreak ≤ 1 := by
  simp only [calculateStats]
  have hkeys : ∀ k ∈ (((collectAll fs none).messages.filter
      (fun m => yearOfTs m.timestamp == year)).foldl statsStep statsAcc0).daily.map
        Prod.fst, yearOfDay k = year := by
    refine statsFold_daily_keys year _ statsAcc0 (by simp [statsAcc0]) ?_
    intro m hm
    have := List.of_mem_filter hm
    simpa using this
  cases hact : activeDatesOf (((collectAll fs none).messages.filter
      (fun m => yearOfTs m.timestamp == year)).foldl statsStep statsAcc0).daily year with
  | nil => simp [calculateStreaks, hact]
  | cons d rest =>
      simp only [calculateStreaks, hact]
      exact currentStreakOf_le_one _ now year hkeys h1 h2

/-- Counterexample to C2 as stated: with recorded activity on both 2024-12-31
and 2025-01-01 and "now" on Jan 1 2025, the reported current streak is 1, not
at least 2 — the walk does not count the prior-year day. -/
theorem c2_counterexample :
    yearOfTs tsDec31 = 2024 ∧ yearOfTs tsJan1 = 2025 ∧
    dayOfTs tsJan1 = dayOfTs tsDec31 + 1 ∧
    dayOfTs nowJan1 = dayOfTs tsJan1 ∧
    ((collectAll exC2fs none).messages.map (fun m => dayOfTs m.timestamp))
      = [dayOfTs tsDec31, dayOfTs tsJan1] ∧
    ¬ (2 ≤ (calculateStats 2025 exC2fs nowJan1).currentStreak) := by
  decide

/-- Witness for C2 (amended): the Jan-1-2025 scenario satisfies the year-edge
hypotheses and the computed current streak is at most 1. -/
theorem c2_witness :
    yearOfDay (nowJan1 / msPerDay) = 2025 ∧
    yearOfDay (nowJan1 / msPerDay - 1) ≠ 2025 ∧
    (calculateStats 2025 exC2fs nowJan1).currentStreak ≤ 1 := by
  refine ⟨by decide, by decide, ?_⟩
  exact c2_amended_current_streak_at_most_one 2025 exC2fs nowJan1 (by decide) (by decide)

/-! ## C7/C8: the max-streak scan -/

theorem runStartIdx_le (dates : List Nat) : ∀ j, runStartIdx dates j ≤ j := by
  intro j
  induction j with
  | zero => simp [runStartIdx]
  | succ k ih =>
      simp only [runStartIdx]
      by_cases h : dates.getD (k + 1) 0 = dates.getD k 0 + 1
      · rw [if_pos h]; omega
      · rw [if_neg h]

theorem runStartIdx_isRunStart (dates : List Nat) :
    ∀ j, runStartIdx dates j = 0 ∨ ¬consecAt dates (runStartIdx dates j) := by
  intro j
  induction j with
  | zero => exact Or.inl rfl
  | succ k ih =>
      simp only [runStartIdx]
      by_cases h : dates.getD (k + 1) 0 = dates.getD k 0 + 1
      · rw [if_pos h]; exact ih
      · rw [if_neg h]
        right
        simpa [consecAt] using h

theorem runStartIdx_consecThru (dates : List Nat) :
    ∀ j i, runStartIdx dates j < i → i ≤ j → consecAt dates i := by
  intro j
  induction j with
  | zero => intro i h1 h2; omega
  | succ k ih =>
      intro i h1 h2
      simp only [runStartIdx] at h1
      by_cases h : dates.getD (k + 1) 0 = dates.getD k 0 + 1
      · rw [if_pos h] at h1
        rcases Nat.lt_or_ge i (k + 1) with hik | hik
        · exact ih i h1 (by omega)
        · have hi : i = k + 1 := by omega
          rw [hi]
          simpa [consecAt] using h
      · rw [if_neg h] at h1
        omega

theorem runStartIdx_eq_of_run (dates : List Nat) (s : Nat)
    (hstart : s = 0 ∨ ¬consecAt dates s) :
    ∀ j, s ≤ j → (∀ i, s < i → i ≤ j → consecAt dates i) → runStartIdx dates j = s := by
  intro j
  induction j with
  | zero =>
      intro hs _
      simp only [runStartIdx]
      omega
  | succ k ih =>
      intro hs hcons
      by_cases heq : s = k + 1
      · subst heq
        rcases hstart with h0 | hnc
        · omega
        · simp only [runStartIdx]
          rw [if_neg]
          intro hcc
          exact hnc (by simpa [consecAt] using hcc)
      · have hsk : s ≤ k := by omega
        have hck : consecAt dates (k + 1) := hcons (k + 1) (by omega) (le_refl _)
        simp only [runStartIdx]
        rw [if_pos (by simpa [consecAt] using hck)]
        exact ih hsk (fun i hi1 hi2 => hcons i hi1 (by omega))

theorem streakAt_pos (dates : List Nat) (j : Nat) : 1 ≤ streakAt dates j := by
  unfold streakAt
  omega

theorem streakInv_init (dates : List Nat) : StreakInv dates 1 initSt := by
  unfold StreakInv initSt
  dsimp only
  refine ⟨rfl, rfl, Nat.zero_lt_one, rfl, rfl, ?_, ?_⟩
  · intro j hj
    have hj0 : j = 0 := by omega
    subst hj0
    simp [streakAt, runStartIdx]
  · intro j hj
    omega

theorem streakStep_inv (dates : List Nat) (i : Nat) (st : StreakSt)
    (hi : 1 ≤ i) (hinv : StreakInv dates i st) :
    StreakInv dates (i + 1) (streakStep st i (dates.getD (i - 1) 0) (dates.getD i 0)) := by
  unfold StreakInv at hinv
  obtain ⟨h1, h2, h3, h4, h5, h6, h7⟩ := hinv
  have hrle : runStartIdx dates (i - 1) ≤ i - 1 := runStartIdx_le dates (i - 1)
  unfold streakStep
  by_cases hc : ((dates.getD i 0 : Int) - (dates.getD (i - 1) 0 : Int) = 1)
  · have hcon : consecAt dates i := by
      unfold consecAt
      omega
    have hrun : runStartIdx dates i = runStartIdx dates (i - 1) := by
      obtain ⟨k, rfl⟩ : ∃ k, i = k + 1 := ⟨i - 1, by omega⟩
      simp only [runStartIdx]
      rw [if_pos (by simpa [consecAt] using hcon)]
      rfl
    have hstAti : streakAt dates i = st.tempStreak + 1 := by
      unfold streakAt at h2 ⊢
      rw [hrun, h2]
      omega
    rw [if_pos hc]
    by_cases hmax : st.maxStreak < st.tempStreak + 1
    · rw [if_pos hmax]
      unfold StreakInv
      dsimp only
      refine ⟨?_, ?_, by omega, ?_, ?_, ?_, ?_⟩
      · rw [show i + 1 - 1 = i from rfl, hrun]
        exact h1
      · rw [show i + 1 - 1 = i from rfl]
        exact hstAti.symm
      · rw [hrun]
        exact h1
      · exact hstAti.symm
      · intro j hj
        rcases Nat.lt_or_ge j i with hji | hji
        · have := h6 j hji
          omega
        · have hj2 : j = i := by omega
          rw [hj2, hstAti]
      · intro j hj
        have := h6 j hj
        omega
    · rw [if_neg hmax]
      unfold StreakInv
      dsimp only
      refine ⟨?_, ?_, by omega, h4, h5, ?_, h7⟩
      · rw [show i + 1 - 1 = i from rfl, hrun]
        exact h1
      · rw [show i + 1 - 1 = i from rfl]
        exact hstAti.symm
      · intro j hj
        rcases Nat.lt_or_ge j i with hji | hji
        · exact h6 j hji
        · have hj2 : j = i := by omega
          rw [hj2, hstAti]
          omega
  · have hncon : ¬consecAt dates i := by
      unfold consecAt
      omega
    have hrun : runStartIdx dates i = i := by
      obtain ⟨k, rfl⟩ : ∃ k, i = k + 1 := ⟨i - 1, by omega⟩
      simp only [runStartIdx]
      rw [if_neg]
      intro hcc
      exact hncon (by simpa [consecAt] using hcc)
    rw [if_neg hc]
    unfold StreakInv
    dsimp only
    refine ⟨?_, ?_, by omega, h4, h5, ?_, h7⟩
    · rw [show i + 1 - 1 = i from rfl, hrun]
    · rw [show i + 1 - 1 = i from rfl]
      unfold streakAt
      rw [hrun]
      omega
    · intro j hj
      rcases Nat.lt_or_ge j i with hji | hji
      · exact h6 j hji
      · have hj2 : j = i := by omega
        rw [hj2]
        unfold streakAt
        rw [hrun]
        have := streakAt_pos dates st.maxStreakEnd
        rw [← h5] at this
        omega

theorem streakGo_inv (dates : List Nat) :
    ∀ (rest : List Nat) (i : Nat) (st : StreakSt),
      1 ≤ i → i + rest.length = dates.length →
      (∀ k, k < rest.length → rest.getD k 0 = dates.getD (i + k) 0) →
      StreakInv dates i st →
      StreakInv dates dates.length (streakGo st i (dates.getD (i - 1) 0) rest) := by
  intro rest
  induction rest with
  | nil =>
      intro i st hi hlen hidx hinv
      simp only [streakGo]
      have hieq : i = dates.length := by simpa using hlen
      rw [← hieq]
      exact hinv
  | cons c rest ih =>
      intro i st hi hlen hidx hinv
      have hc : c = dates.getD i 0 := by
        have h0 := hidx 0 (by simp)
        simpa using h0
      simp only [streakGo]
      rw [hc]
      have hstep := streakStep_inv dates i st hi hinv
      have hlen2 : (i + 1) + rest.length = dates.length := by
        simp only [List.length_cons] at hlen
        omega
      have hidx2 : ∀ k, k < rest.length → rest.getD k 0 = dates.getD ((i + 1) + k) 0 := by
        intro k hk
        have h0 := hidx (k + 1) (by simpa using Nat.succ_lt_succ hk)
        rw [List.getD_cons_succ] at h0
        rw [h0]
        congr 1
        omega
      exact ih (i + 1) _ (by omega) hlen2 hidx2 hstep

theorem streakInv_final (dates : List Nat) (st : StreakSt)
    (hinv : StreakInv dates dates.length st) :
    IsRun dates st.maxStreakStart st.maxStreakEnd ∧
    st.maxStreak = st.maxStreakEnd + 1 - st.maxStreakStart ∧
    (∀ s2 e2, IsRun dates s2 e2 →
      e2 + 1 - s2 ≤ st.maxStreak ∧
      (e2 + 1 - s2 = st.maxStreak → st.maxStreakStart ≤ s2)) := by
  unfold StreakInv at hinv
  obtain ⟨h1, h2, h3, h4, h5, h6, h7⟩ := hinv
  have hse : st.maxStreakStart ≤ st.maxStreakEnd := by
    rw [h4]
    exact runStartIdx_le dates st.maxStreakEnd
  have hlen_eq : st.maxStreak = st.maxStreakEnd + 1 - st.maxStreakStart := by
    unfold streakAt at h5
    rw [← h4] at h5
    omega
  have hrunrec : IsRun dates st.maxStreakStart st.maxStreakEnd := by
    refine ⟨hse, h3, ?_, ?_, ?_⟩
    · rw [h4]
      exact runStartIdx_isRunStart dates st.maxStreakEnd
    · by_cases hend : st.maxStreakEnd + 1 = dates.length
      · exact Or.inl hend
      · right
        intro hcc
        have hrun : runStartIdx dates (st.maxStreakEnd + 1)
            = runStartIdx dates st.maxStreakEnd := by
          simp only [runStartIdx]
          rw [if_pos (by simpa [consecAt] using hcc)]
        have hbig := h6 (st.maxStreakEnd + 1) (by omega)
        unfold streakAt at hbig
        rw [hrun, ← h4] at hbig
        omega
    · intro i hi1 hi2
      refine runStartIdx_consecThru dates st.maxStreakEnd i ?_ hi2
      rw [← h4]
      exact hi1
  refine ⟨hrunrec, hlen_eq, ?_⟩
  intro s2 e2 hr2
  obtain ⟨hse2, he2lt, hstart2, hend2, hcons2⟩ := hr2
  have hrs2 : runStartIdx dates e2 = s2 :=
    runStartIdx_eq_of_run dates s2 hstart2 e2 hse2 hcons2
  have hlen2 : streakAt dates e2 = e2 + 1 - s2 := by
    unfold streakAt
    rw [hrs2]
    omega
  have hbound := h6 e2 he2lt
  rw [hlen2] at hbound
  refine ⟨hbound, ?_⟩
  intro heq
  by_contra hlt
  push_neg at hlt
  have hee : st.maxStreakEnd ≤ e2 := by
    by_contra hgt
    push_neg at hgt
    have := h7 e2 hgt
    rw [hlen2] at this
    omega
  have hmid : runStartIdx dates st.maxStreakEnd = s2 := by
    refine runStartIdx_eq_of_run dates s2 hstart2 st.maxStreakEnd ?_ ?_
    · omega
    · intro i hi1 hi2
      exact hcons2 i hi1 (by omega)
  rw [hmid] at h4
  omega

theorem sliceIdx_length (dates : List Nat) :
    ∀ (len s : Nat), (sliceIdx dates s len).length = len := by
  intro len
  induction len with
  | zero => intro s; rfl
  | succ k ih => intro s; simp [sliceIdx, ih]

theorem sliceIdx_chain (dates : List Nat) :
    ∀ (len s : Nat), (∀ i, s < i → i < s + len → consecAt dates i) →
      List.Chain' (fun a b => b = a + 1) (sliceIdx dates s len) := by
  intro len
  induction len with
  | zero => intro s h; simp [sliceIdx]
  | succ k ih =>
      intro s h
      match k with
      | 0 => simp [sliceIdx]
      | k2 + 1 =>
          have htail := ih (s + 1) (fun i hi1 hi2 => h i (by omega) (by omega))
          rw [show sliceIdx dates s (k2 + 1 + 1)
              = dates.getD s 0 :: sliceIdx dates (s + 1) (k2 + 1) from rfl]
          rw [show sliceIdx dates (s + 1) (k2 + 1)
              = dates.getD (s + 1) 0 :: sliceIdx dates (s + 2) k2 from rfl] at htail ⊢
          rw [List.chain'_cons]
          refine ⟨?_, htail⟩
          have hcs := h (s + 1) (by omega) (by omega)
          unfold consecAt at hcs
          simpa using hcs

theorem sliceIdx_nodup (dates : List Nat) (len s : Nat)
    (h : List.Chain' (fun a b => b = a + 1) (sliceIdx dates s len)) :
    (sliceIdx dates s len).Nodup := by
  have hlt : List.Chain' (fun a b : Nat => a < b) (sliceIdx dates s len) := by
    refine List.Chain'.imp ?_ h
    intro a b hab
    omega
  have hpw : List.Pairwise (fun a b : Nat => a < b) (sliceIdx dates s len) :=
    List.chain'_iff_pairwise.mp hlt
  exact hpw.imp Nat.ne_of_lt

/-- Claim C7: over the ascending-sorted active dates, the recorded maximal run
is the FIRST run of maximal length encountered — a later run of equal length
never replaces it — and `maxStreakDays` is exactly the dates in the winning
run's inclusive start/end index range. -/
theorem c7_first_max_run (act : List (Nat × Nat)) (year : Nat) (now : Nat)
    (hne : activeDatesOf act year ≠ []) :
    ∃ s e, IsRun (activeDatesOf act year) s e ∧
      (calculateStreaks act year now).maxStreak = e + 1 - s ∧
      (∀ s2 e2, IsRun (activeDatesOf act year) s2 e2 →
        e2 + 1 - s2 ≤ (calculateStreaks act year now).maxStreak ∧
        (e2 + 1 - s2 = (calculateStreaks act year now).maxStreak → s ≤ s2)) ∧
      (calculateStreaks act year now).maxStreakDays
        = sliceIdx (activeDatesOf act year) s (e + 1 - s) := by
  cases hact : activeDatesOf act year with
  | nil => exact absurd hact hne
  | cons d rest =>
      have hinv0 : StreakInv (d :: rest) 1 initSt := streakInv_init _
      have hidx : ∀ k, k < rest.length → rest.getD k 0 = (d :: rest).getD (1 + k) 0 := by
        intro k hk
        rw [Nat.add_comm, List.getD_cons_succ]
      have hgo := streakGo_inv (d :: rest) rest 1 initSt (le_refl 1)
        (by simp only [List.length_cons]; omega) hidx hinv0
      have hfin := streakInv_final (d :: rest) _ hgo
      refine ⟨(streakGo initSt 1 d rest).maxStreakStart,
              (streakGo initSt 1 d rest).maxStreakEnd, hfin.1, ?_, ?_, ?_⟩
      · simp only [calculateStreaks, hact]
        exact hfin.2.1
      · intro s2 e2 hr2
        simp only [calculateStreaks, hact]
        exact hfin.2.2 s2 e2 hr2
      · simp only [calculateStreaks, hact]

/-- Witness for C7: two runs of equal length two (days 10-11 and 20-21); the
theorem applies and, concretely, the recorded run is the first one. -/
theorem c7_witness :
    (activeDatesOf exC7act 1970 ≠ []) ∧
    (∃ s e, IsRun (activeDatesOf exC7act 1970) s e ∧
      (calculateStreaks exC7act 1970 0).maxStreak = e + 1 - s ∧
      (∀ s2 e2, IsRun (activeDatesOf exC7act 1970) s2 e2 →
        e2 + 1 - s2 ≤ (calculateStreaks exC7act 1970 0).maxStreak ∧
        (e2 + 1 - s2 = (calculateStreaks exC7act 1970 0).maxStreak → s ≤ s2)) ∧
      (calculateStreaks exC7act 1970 0).maxStreakDays
        = sliceIdx (activeDatesOf exC7act 1970) s (e + 1 - s)) ∧
    (calculateStreaks exC7act 1970 0).maxStreakDays = [10, 11] := by
  refine ⟨by decide, c7_first_max_run exC7act 1970 0 (by decide), by decide⟩

/-- Claim C8: for every daily-activity map and target year, the
`maxStreakDays` set has size equal to the reported `maxStreak`, and its dates
(in the ascending order they are produced) are pairwise-consecutive calendar
days; zero active dates in the year yields `maxStreak = 0` with an empty set,
and exactly one active date yields `maxStreak = 1`. -/
theorem c8_streak_invariants (act : List (Nat × Nat)) (year : Nat) (now : Nat) :
    (calculateStreaks act year now).maxStreakDays.length
        = (calculateStreaks act year now).maxStreak ∧
    (calculateStreaks act year now).maxStreakDays.Nodup ∧
    List.Chain' (fun a b => b = a + 1) (calculateStreaks act year now).maxStreakDays ∧
    (((act.map Prod.fst).filter (fun d => yearOfDay d == year)) = [] →
      (calculateStreaks act year now).maxStreak = 0 ∧
      (calculateStreaks act year now).maxStreakDays = []) ∧
    (((act.map Prod.fst).filter (fun d => yearOfDay d == year)).length = 1 →
      (calculateStreaks act year now).maxStreak = 1) := by
  have hlen_sorted : (activeDatesOf act year).length
      = ((act.map Prod.fst).filter (fun d => yearOfDay d == year)).length :=
    (List.perm_insertionSort _ _).length_eq
  cases hact : activeDatesOf act year with
  | nil =>
      refine ⟨by simp [calculateStreaks, hact], by simp [calculateStreaks, hact],
        by simp [calculateStreaks, hact], fun h => ⟨by simp [calculateStreaks, hact],
          by simp [calculateStreaks, hact]⟩, ?_⟩
      intro h
      exfalso
      rw [hact] at hlen_sorted
      rw [h] at hlen_sorted
      simp at hlen_sorted
  | cons d rest =>
      have hinv0 : StreakInv (d :: rest) 1 initSt := streakInv_init _
      have hidx : ∀ k, k < rest.length → rest.getD k 0 = (d :: rest).getD (1 + k) 0 := by
        intro k hk
        rw [Nat.add_comm, List.getD_cons_succ]
      have hgo := streakGo_inv (d :: rest) rest 1 initSt (le_refl 1)
        (by simp only [List.length_cons]; omega) hidx hinv0
      rw [show (d :: rest).getD (1 - 1) 0 = d from rfl] at hgo
      have hfin := streakInv_final (d :: rest) _ hgo
      obtain ⟨hrun, hlen, hmax⟩ := hfin
      obtain ⟨hse, helt, hstart, hend, hcons⟩ := hrun
      have hchain : List.Chain' (fun a b => b = a + 1)
          (sliceIdx (d :: rest) (streakGo initSt 1 d rest).maxStreakStart
            ((streakGo initSt 1 d rest).maxStreakEnd + 1
              - (streakGo initSt 1 d rest).maxStreakStart)) := by
        refine sliceIdx_chain (d :: rest) _ _ ?_
        intro i hi1 hi2
        refine hcons i hi1 ?_
        omega
      refine ⟨?_, ?_, ?_, ?_, ?_⟩
      · simp only [calculateStreaks, hact]
        rw [sliceIdx_length]
        exact hlen.symm
      · simp only [calculateStreaks, hact]
        exact sliceIdx_nodup _ _ _ hchain
      · simp only [calculateStreaks, hact]
        exact hchain
      · intro h
        exfalso
        have h0 : (activeDatesOf act year).length = 0 := by
          rw [hlen_sorted, h]
          rfl
        rw [hact] at h0
        simp at h0
      · intro h
        have h1 : (activeDatesOf act year).length = 1 := by
          rw [hlen_sorted, h]
        rw [hact] at h1
        simp only [List.length_cons] at h1
        have hrest : rest = [] := List.length_eq_zero.mp (by omega)
        subst hrest
        simp [calculateStreaks, hact, streakGo, initSt]

/-- Witness for C8: the size/consecutiveness conjunct at a singleton activity
map, the zero-active-dates case at the empty map, and the one-active-date case
at the singleton map. -/
theorem c8_witness :
    ((calculateStreaks exC8act 1970 0).maxStreakDays.length
        = (calculateStreaks exC8act 1970 0).maxStreak) ∧
    (((([] : List (Nat × Nat)).map Prod.fst).filter (fun d => yearOfDay d == 1970)) = []
      ∧ (calculateStreaks [] 1970 0).maxStreak = 0
      ∧ (calculateStreaks [] 1970 0).maxStreakDays = []) ∧
    (((exC8act.map Prod.fst).filter (fun d => yearOfDay d == 1970)).length = 1
      ∧ (calculateStreaks exC8act 1970 0).maxStreak = 1) := by
  refine ⟨(c8_streak_invariants exC8act 1970 0).1, ⟨by decide, ?_, ?_⟩, ⟨by decide, ?_⟩⟩
  · exact ((c8_streak_invariants [] 1970 0).2.2.2.1 (by decide)).1
  · exact ((c8_streak_invariants [] 1970 0).2.2.2.1 (by decide)).2
  · exact (c8_streak_invariants exC8act 1970 0).2.2.2.2 (by decide)

end OCWrapped
